import Mathlib

/-!
# Red Pitaya streaming console server: verification development

A shallow embedding of `apps-tools/streaming_manager/src/console_server/main.cpp`.

* Process-wide globals (`g_run`, `osc`, `s_manger`, `s_app`, `con_server`) are the fields of
  `State`; every call that leaves the translation unit (stdio, syslog, the control-plane
  object, the streaming application) is appended to `State.trace` as an `Effect`.
* Collaborators whose code is not part of the translation unit (`popen`, `ClientOpt::split`,
  `ServerNetConfigManager`, `CStreamingApplication::stop`) are parameters collected in `Env`.
* `std::string` values that the program computes on are `List Char`; fixed message texts are
  `String` literals.
-/

namespace RedPitaya
namespace ConsoleServer

/-! ## Data model -/

/-- Modelled from the spec: the event-kind enumeration `ServerNetConfigManager::Events`, whose
header is not part of the sources. The three named kinds are the ones `main` refers to; `other`
stands for any further enumerator the header may declare. -/
inductive Events where
  | GET_NEW_SETTING
  | START_STREAMING
  | STOP_STREAMING
  | other (tag : Nat)
  deriving DecidableEq, Repr

/-- The three closures `main` passes to `addHandler`, in source order (lines 219, 226, 230). -/
inductive Lambda where
  | getNewSetting
  | startStreaming
  | stopStreaming
  deriving DecidableEq, Repr

/-- Board variants selected by the preprocessor (`Z10`, `Z20`, `Z20_125`, `Z20_250_12`). -/
inductive Board where
  | Z10
  | Z20
  | Z20_125
  | Z20_250_12
  deriving DecidableEq, Repr

/-- Enumeration `asionet_broadcast::CAsioBroadcastSocket::Model`, as far as `main` names it. -/
inductive Model where
  | RP_125_14
  | RP_122_16
  | RP_125_14_Z20
  | RP_250_12
  deriving DecidableEq, Repr

/-- Enumeration `asionet_broadcast::CAsioBroadcastSocket::ABMode`, as far as `main` names it. -/
inductive ABMode where
  | AB_SERVER_MASTER
  | AB_SERVER_SLAVE
  deriving DecidableEq, Repr

/-- Syslog priorities used by the translation unit. -/
inductive LogLevel where
  | LOG_ERR
  | LOG_NOTICE
  | LOG_INFO
  deriving DecidableEq, Repr

/-- Calls that leave the translation unit, in the order they are made. -/
inductive Effect where
  | stdoutWrite (text : String)
  | stderrWrite (text : String)
  | syslogWrite (level : LogLevel) (text : String)
  | appStop (graceful : Bool)
  | conCreate (conf_file : String) (mode : ABMode) (host : String) (config_port : String)
  | conStartBroadcast (model : Model) (brchost : List Char) (broadcast_port : String)
  | conAddHandler (event : Events) (handler : Lambda)
  | conStop
  | threadStart (x : Int)
  | sys (call : String)
  deriving DecidableEq, Repr

/-- What a C++ call can throw, as far as the `catch (std::exception&)` clauses distinguish. -/
inductive Thrown where
  | stdException (what : String)
  | nonStd
  deriving DecidableEq, Repr

/-- Result of a call into a collaborator: normal return, or an exception. -/
inductive Outcome where
  | returns
  | throws (e : Thrown)
  deriving DecidableEq, Repr

/-- The globals of `main.cpp` (lines 45-49) together with the trace of outside calls.
A `shared_ptr` is `none` when null and `some id` otherwise. -/
structure State where
  g_run : Bool
  osc : Option Nat
  s_manger : Option Nat
  s_app : Option Nat
  con_server : Option Nat
  trace : List Effect
  deriving DecidableEq, Repr

/-- Static initialisation: `g_run(true)`, all pointers `nullptr`. -/
def State.init : State :=
  { g_run := true, osc := none, s_manger := none, s_app := none, con_server := none, trace := [] }

/-- Append one outside call to the trace. -/
def State.emit (s : State) (e : Effect) : State :=
  { s with trace := s.trace ++ [e] }

/-- The globals other than `g_run`. -/
def State.pointers (s : State) : Option Nat × Option Nat × Option Nat × Option Nat :=
  (s.osc, s.s_manger, s.s_app, s.con_server)

/-- The fields of the result of `ClientOpt::parse` that `main` reads. -/
structure ClientOpt where
  background : Bool
  conf_file : String
  config_port : String
  broadcast_port : String
  deriving DecidableEq, Repr

/-- Behaviour of the collaborators that are outside the translation unit. -/
structure Env where
  /-- Result of `exec("ip addr show eth0 2> /dev/null")`: the captured output, or the `what()`
  of the `runtime_error` thrown when `popen` fails. -/
  exec_eth0 : Except String (List Char)
  /-- Result of `exec("ip addr show wlan0 2> /dev/null")`. -/
  exec_wlan0 : Except String (List Char)
  /-- The function `ClientOpt::split`. -/
  split : List Char → Char → List (List Char)
  /-- Result of `std::make_shared<ServerNetConfigManager>(...)`: the new object, or an
  exception. -/
  conCreate : Except Thrown Nat
  /-- Outcome of `ServerNetConfigManager::startBroadcast`. -/
  conStartBroadcast : Outcome
  /-- Outcome of `ServerNetConfigManager::addHandler`. -/
  conAddHandler : Events → Outcome
  /-- Outcome of `CStreamingManager::MakeEmptyDir(FILE_PATH)`. -/
  makeEmptyDir : Outcome
  /-- Outcome of `CStreamingApplication::stop(graceful)`. -/
  appStop : Bool → Outcome
  /-- Outcome of `ServerNetConfigManager::stop`. -/
  conStop : Outcome
  /-- Outcome of constructing the `std::thread` in `StopNonBlocking`. -/
  threadCreate : Outcome
  /-- Return value of `fork()`. -/
  fork : Int
  /-- Return value of `setsid()`. -/
  setsid : Int

/-- How a run of (a part of) `main` ends. -/
inductive Flow where
  /-- Control reaches the end of the part. -/
  | next (s : State)
  /-- Either `exit(code)` or `return code` from `main`. -/
  | exited (code : Int) (s : State)
  /-- An exception no handler catches. -/
  | uncaught (e : Thrown) (s : State)
  deriving DecidableEq, Repr

/-- Exit status `EXIT_SUCCESS`. -/
def EXIT_SUCCESS : Int := 0

/-- Exit status `EXIT_FAILURE`. -/
def EXIT_FAILURE : Int := 1

/-! ## Signal handling (lines 72-89) -/

/-- Function `termSignalHandler`: two writes, then `g_run = false`. -/
def termSignalHandler (_signum : Int) (s : State) : State :=
  let s1 := s.emit (.stdoutWrite "\nReceived terminate signal. Exiting...\n")
  let s2 := s1.emit (.syslogWrite .LOG_NOTICE "Received terminate signal. Exiting...")
  { s2 with g_run := false }

/-- Function `installTermSignalHandler`: registers the handler for SIGTERM and SIGINT. -/
def installTermSignalHandler (s : State) : State :=
  (s.emit (.sys "sigaction(SIGTERM)")).emit (.sys "sigaction(SIGINT)")

/-- Function `handleCloseChildEvents`. -/
def handleCloseChildEvents (s : State) : State :=
  s.emit (.sys "sigaction(SIGCHLD)")

/-! ## Shutdown helpers (lines 472-491) -/

/-- Function `StopServer`: the guarded call `s_app->stop(false)` inside `try`/`catch (std::exception&)`.
The second component is the exception that leaves the function, if any. -/
def StopServer (env : Env) (_x : Int) (s : State) : State × Option Thrown :=
  match s.s_app with
  | none => (s, none)
  | some _ =>
    let s1 := s.emit (.appStop false)
    match env.appStop false with
    | .returns => (s1, none)
    | .throws (.stdException what) =>
      let s2 := s1.emit (.stderrWrite ("Error: StopServer() " ++ what ++ "\n"))
      (s2.emit (.syslogWrite .LOG_ERR ("Error: StopServer() " ++ what ++ "\n")), none)
    | .throws .nonStd => (s1, some .nonStd)

/-! ## Control-plane handlers (lines 219-232) -/

/-- Bodies of the three closures; the bodies of the second and third consist of a comment. -/
def runLambda : Lambda → State → State
  | .getNewSetting, s =>
    (s.emit (.stdoutWrite "Get new settings\n")).emit (.syslogWrite .LOG_INFO "Get new settings\n")
  | .startStreaming, s => s
  | .stopStreaming, s => s

/-- Function `StopNonBlocking`: starts a detached thread whose body is `StopServer(x)`; a
`std::exception` from the thread constructor is caught and logged. -/
def StopNonBlocking (env : Env) (x : Int) (s : State) : State × Option Thrown :=
  match env.threadCreate with
  | .returns => (s.emit (.threadStart x), none)
  | .throws (.stdException what) =>
    let s1 := s.emit (.stderrWrite ("Error: StopNonBlocking() " ++ what ++ "\n"))
    (s1.emit (.syslogWrite .LOG_ERR ("Error: StopNonBlocking() " ++ what ++ "\n")), none)
  | .throws .nonStd => (s, some .nonStd)

/-! ## Calibration gain (lines 55-61) -/

/-- A finite binary floating-point value `sig * 2 ^ exp`. -/
structure Bin where
  sig : Nat
  exp : Int
  deriving DecidableEq, Repr

/-- The rational number a `Bin` stands for. -/
def Bin.toRat (x : Bin) : ℚ := (x.sig : ℚ) * (2 : ℚ) ^ x.exp

/-- Number of low-order bits to drop for `n` to fit in `p` bits: the least `k` with
`n / 2 ^ k < 2 ^ p`, found by repeated halving; `fuel` bounds the number of halvings. -/
def dropCount (p : Nat) : Nat → Nat → Nat
  | 0, _ => 0
  | fuel + 1, n => if n < 2 ^ p then 0 else dropCount p fuel (n / 2) + 1

/-- Round a natural number to at most `p` significant bits, to nearest, ties to even: with
`k` the number of low bits to drop, the kept part `q` is incremented when the dropped part
`r` is above half a unit, or equal to it with `q` odd. -/
def roundSig (p n : Nat) : Nat :=
  if n < 2 ^ p then n
  else
    let k := dropCount p n n
    let q := n / 2 ^ k
    let r := n % 2 ^ k
    let half := 2 ^ (k - 1)
    if r < half then q * 2 ^ k
    else if r = half ∧ q % 2 = 0 then q * 2 ^ k
    else (q + 1) * 2 ^ k

/-- Conversion to a binary format with `p` bits of precision (IEEE 754 round to nearest
even). The exponent range is not modelled: every value `calibFullScaleToVoltage` computes for
a 32-bit argument lies between `2 ^ (-26)` and `2 ^ 39`, inside the normal range of both
`float` and `double`. -/
def Bin.round (p : Nat) (x : Bin) : Bin := { sig := roundSig p x.sig, exp := x.exp }

/-- Conversion to `float` (24 bits of precision). -/
def toFloat (x : Bin) : Bin := x.round 24

/-- Conversion to `double` (53 bits of precision). -/
def toDouble (x : Bin) : Bin := x.round 53

/-- An integer as an exact binary value. -/
def Bin.ofNat (n : Nat) : Bin := { sig := n, exp := 0 }

/-- Exact product. -/
def Bin.mul (x y : Bin) : Bin := { sig := x.sig * y.sig, exp := x.exp + y.exp }

/-- Exact quotient by `2 ^ k`. -/
def Bin.divPow2 (x : Bin) (k : Nat) : Bin := { sig := x.sig, exp := x.exp - k }

/-- Function `calibFullScaleToVoltage`. The argument is a `uint32_t`. The expression
`(float)fullScaleGain * 100.0 / ((uint64_t)1<<32)` converts the gain to `float`, promotes it
to `double`, multiplies by the `double` constant 100.0, divides by the `double` value
`2 ^ 32`, each operation rounding its exact result to `double`; the outer cast rounds to
`float`. -/
def calibFullScaleToVoltage (fullScaleGain : Nat) : Bin :=
  if fullScaleGain = 0 then toFloat (Bin.ofNat 1)
  else
    let gain := toFloat (Bin.ofNat fullScaleGain)
    let product := toDouble (Bin.mul (toDouble gain) (toDouble (Bin.ofNat 100)))
    let quotient := toDouble (Bin.divPow2 product 32)
    toFloat quotient

/-! ## The address pattern (line 178) and `std::regex_search` -/

/-- One element of the pattern: a character class repeated between `lo` and `hi` times
(greedy). -/
structure Atom where
  cls : Char → Bool
  lo : Nat
  hi : Nat

/-- Class `[0-9]`. -/
def isDigit09 (c : Char) : Bool := decide (48 ≤ c.toNat) && decide (c.toNat ≤ 57)

/-- Atom `[0-9]{1,3}`. -/
def octetAtom : Atom := { cls := isDigit09, lo := 1, hi := 3 }

/-- Atom `\.` (a literal dot). -/
def dotAtom : Atom := { cls := fun c => c == '.', lo := 1, hi := 1 }

/-- The regular expression `[0-9]{1,3}\.[0-9]{1,3}\.[0-9]{1,3}\.[0-9]{1,3}`. -/
def pattern : List Atom :=
  [octetAtom, dotAtom, octetAtom, dotAtom, octetAtom, dotAtom, octetAtom]

/-- Number of leading characters of the input that are in the class, capped at `cap`. -/
def runLength (p : Char → Bool) : Nat → List Char → Nat
  | 0, _ => 0
  | _ + 1, [] => 0
  | n + 1, c :: cs => if p c then runLength p n cs + 1 else 0

/-- Greedy repetition with backtracking: try `n` repetitions, then `n - 1`, ... down to `lo`;
the first count for which the rest of the pattern (`cont`) matches wins. -/
def greedy (cont : List Char → Option (List Char)) (lo : Nat) (s : List Char) :
    Nat → Option (List Char)
  | 0 => if lo = 0 then cont s else none
  | n + 1 =>
    if n + 1 < lo then none
    else
      match cont (s.drop (n + 1)) with
      | some m => some (s.take (n + 1) ++ m)
      | none => greedy cont lo s n

/-- Match the atoms at the very start of the input (ECMAScript backtracking order); the
result is the matched text. -/
def matchHere : List Atom → List Char → Option (List Char)
  | [], _ => some []
  | a :: rest, s => greedy (fun t => matchHere rest t) a.lo s (runLength a.cls a.hi s)

/-- Leftmost match: try every start position from left to right. -/
def searchFrom (atoms : List Atom) : List Char → Option (List Char)
  | [] => matchHere atoms []
  | c :: cs =>
    match matchHere atoms (c :: cs) with
    | some m => some m
    | none => searchFrom atoms cs

/-- Call `std::regex_search(h, match, pattern)`: `none` when it returns false, otherwise the
filled `std::smatch`, which for a pattern without capture groups has the whole match as its
only element. -/
def regex_search (h : List Char) : Option (List (List Char)) :=
  (searchFrom pattern h).map (fun m => [m])

/-! ## `main` (lines 108-470) -/

/-- The loop of lines 183-191 over `v_hosts`, threading `brchost`. -/
def hostLoop : List (List Char) → List Char → List Char
  | [], brchost => brchost
  | h :: rest, brchost =>
    match regex_search h with
    | some mt =>
      if mt.length > 0 then
        let brchost1 := if brchost ≠ [] then brchost ++ [';'] else brchost
        hostLoop rest (brchost1 ++ mt.getD (mt.length - 1) [])
      else hostLoop rest brchost
    | none => hostLoop rest brchost

/-- Lines 179-191: the value of `brchost` for given outputs of the two interface queries. -/
def buildBrchost (split : List Char → Char → List (List Char)) (hosts whosts : List Char) :
    List Char :=
  let v_hosts := split hosts '\n'
  let v_whosts := split whosts '\n'
  let v_hosts := v_hosts ++ v_whosts
  hostLoop v_hosts []

/-- The `mode` variable; `STREAMING_MASTER` selects the master role, `STREAMING_SLAVE` the
slave role. -/
def modeOf (streamingMaster : Bool) : ABMode :=
  if streamingMaster then .AB_SERVER_MASTER else .AB_SERVER_SLAVE

/-- The `model` variable for each board macro (lines 200-214). -/
def modelOf : Board → Model
  | .Z10 => .RP_125_14
  | .Z20 => .RP_122_16
  | .Z20_125 => .RP_125_14_Z20
  | .Z20_250_12 => .RP_250_12

/-- Compile-time configuration. -/
structure Build where
  board : Board
  streamingMaster : Bool
  FILE_PATH : String

/-- The `catch (std::exception& e)` clause of lines 234-239; any other exception propagates. -/
def setupCatch (e : Thrown) (s : State) : Flow :=
  match e with
  | .stdException what =>
    let s1 := s.emit (.stderrWrite ("Error: Init ServerNetConfigManager() " ++ what ++ "\n"))
    .exited EXIT_FAILURE
      (s1.emit (.syslogWrite .LOG_ERR ("Error: Init ServerNetConfigManager() " ++ what ++ "\n")))
  | .nonStd => .uncaught .nonStd s

/-- One call of `con_server->addHandler(event, handler)` followed by the rest of the `try`
block. -/
def addHandlerThen (env : Env) (event : Events) (handler : Lambda) (s : State)
    (rest : State → Flow) : Flow :=
  let s1 := s.emit (.conAddHandler event handler)
  match env.conAddHandler event with
  | .returns => rest s1
  | .throws e => setupCatch e s1

/-- Lines 175-239: control-plane setup. -/
def mainSetup (env : Env) (build : Build) (opt : ClientOpt) (s : State) : Flow :=
  match env.exec_eth0 with
  | .error what => setupCatch (.stdException what) s
  | .ok hosts =>
    match env.exec_wlan0 with
    | .error what => setupCatch (.stdException what) s
    | .ok whosts =>
      let brchost := buildBrchost env.split hosts whosts
      let s1 := s.emit
        (.conCreate opt.conf_file (modeOf build.streamingMaster) "127.0.0.1" opt.config_port)
      match env.conCreate with
      | .error e => setupCatch e s1
      | .ok p =>
        let s2 := { s1 with con_server := some p }
        let s3 := s2.emit (.conStartBroadcast (modelOf build.board) brchost opt.broadcast_port)
        match env.conStartBroadcast with
        | .throws e => setupCatch e s3
        | .returns =>
          addHandlerThen env .GET_NEW_SETTING .getNewSetting s3 fun s4 =>
          addHandlerThen env .START_STREAMING .startStreaming s4 fun s5 =>
          addHandlerThen env .STOP_STREAMING .stopStreaming s5 fun s6 =>
          .next s6

/-- Lines 111-120: logging setup, option parsing, calibration initialisation
(`#ifndef Z20`). -/
def mainProlog (build : Build) (s : State) : State :=
  let s1 := (s.emit (.sys "setlogmask")).emit (.sys "openlog")
  if build.board = .Z20 then s1
  else (s1.emit (.sys "rp_CalibInit")).emit (.sys "rp_GetCalibrationSettings")

/-- Lines 137-172: daemonisation when `opt.background` is set; the model follows the process
that continues. -/
def mainDaemonize (env : Env) (opt : ClientOpt) (s : State) : Flow :=
  if opt.background then
    let s1 := s.emit (.sys "fork")
    if env.fork < 0 then .exited 1 (s1.emit (.stderrWrite "fork failed!\n"))
    else if env.fork > 0 then .exited 0 s1
    else
      let s2 := (s1.emit (.sys "umask")).emit (.sys "setsid")
      if env.setsid < 0 then .exited 1 s2
      else
        .next (((s2.emit (.sys "close(STDIN_FILENO)")).emit (.sys "close(STDOUT_FILENO)")).emit
          (.sys "close(STDERR_FILENO)"))
  else .next s

/-- Lines 331-345: start message, signal handlers, output directory. -/
def mainStart (env : Env) (build : Build) (s : State) : Flow :=
  let s1 := s.emit (.stdoutWrite "streaming-server started\n")
  let s2 := s1.emit (.syslogWrite .LOG_NOTICE "streaming-server started")
  let s3 := handleCloseChildEvents (installTermSignalHandler s2)
  let s4 := s3.emit (.sys "MakeEmptyDir")
  match env.makeEmptyDir with
  | .returns => .next s4
  | .throws (.stdException what) =>
    let msg := "Error: Can\x27t create " ++ build.FILE_PATH ++ " dir " ++ what
    .exited EXIT_FAILURE ((s4.emit (.stderrWrite msg)).emit (.syslogWrite .LOG_ERR msg))
  | .throws .nonStd => .uncaught .nonStd s4

/-- Lines 347-348, `while(g_run){}`. Each element of the schedule is what happens during one
iteration: `some signum` is the delivery of SIGTERM or SIGINT (the handler runs), `none` is
nothing. The result is `none` when the schedule ends with the loop still spinning. -/
def waitLoop : List (Option Int) → State → Option State
  | [], s => if s.g_run then none else some s
  | ev :: rest, s =>
    if s.g_run then
      match ev with
      | some signum => waitLoop rest (termSignalHandler signum s)
      | none => waitLoop rest s
    else some s

/-- Lines 350-469: the final `try` block (whose body is entirely commented out, so nothing
in it can throw), `con_server->stop()`, the closing messages and `return (EXIT_SUCCESS)`. -/
def mainShutdown (env : Env) (s : State) : Flow :=
  let s1 := s.emit .conStop
  match env.conStop with
  | .throws e => .uncaught e s1
  | .returns =>
    let s2 := s1.emit (.stdoutWrite "streaming-server stopped.\n")
    let s3 := s2.emit (.syslogWrite .LOG_INFO "streaming-server stopped.")
    .exited EXIT_SUCCESS (s3.emit (.sys "closelog"))

/-- The whole of `main`, from static initialisation; `none` when the wait loop never ends
within the schedule. -/
def main (env : Env) (build : Build) (opt : ClientOpt) (sched : List (Option Int)) :
    Option Flow :=
  match mainDaemonize env opt (mainProlog build State.init) with
  | .next s1 =>
    match mainSetup env build opt s1 with
    | .next s2 =>
      match mainStart env build s2 with
      | .next s3 =>
        match waitLoop sched s3 with
        | some s4 => some (mainShutdown env s4)
        | none => none
      | f => some f
    | f => some f
  | f => some f

/-- State in which a `Flow` ends. -/
def Flow.state : Flow → State
  | .next s => s
  | .exited _ s => s
  | .uncaught _ s => s

/-- Every piece of code in the translation unit that can run after static initialisation. -/
inductive Op where
  | signal (signum : Int)
  | lambda (l : Lambda)
  | stopServer (x : Int)
  | stopNonBlocking (x : Int)
  | prolog
  | daemonize
  | setup
  | start
  | shutdown

/-- Effect of one `Op` on the state. -/
def Op.run (env : Env) (build : Build) (opt : ClientOpt) : Op → State → State
  | .signal signum, s => termSignalHandler signum s
  | .lambda l, s => runLambda l s
  | .stopServer x, s => (StopServer env x s).1
  | .stopNonBlocking x, s => (StopNonBlocking env x s).1
  | .prolog, s => mainProlog build s
  | .daemonize, s => (mainDaemonize env opt s).state
  | .setup, s => (mainSetup env build opt s).state
  | .start, s => (mainStart env build s).state
  | .shutdown, s => (mainShutdown env s).state

/-- Run a sequence of `Op`s. -/
def runOps (env : Env) (build : Build) (opt : ClientOpt) : List Op → State → State
  | [], s => s
  | op :: rest, s => runOps env build opt rest (op.run env build opt s)

/-- The `appStop` calls in a trace, in order. -/
def appStops (t : List Effect) : List Bool :=
  t.filterMap fun e => match e with
    | .appStop g => some g
    | _ => none

/-- The events for which `addHandler` is called in a trace, in order. -/
def registrations (t : List Effect) : List Events :=
  t.filterMap fun e => match e with
    | .conAddHandler ev _ => some ev
    | _ => none

/-- Whether an effect is a `startBroadcast` call. -/
def isStartBroadcast : Effect → Bool
  | .conStartBroadcast _ _ _ => true
  | _ => false

/-- Whether an effect is an `addHandler` call. -/
def isAddHandler : Effect → Bool
  | .conAddHandler _ _ => true
  | _ => false

/-- Whether an effect is a write to stdout, stderr or the system log. -/
def isOutput : Effect → Bool
  | .stdoutWrite _ => true
  | .stderrWrite _ => true
  | .syslogWrite _ _ => true
  | _ => false

/-- Whether an effect stops the streaming application, directly or through the detached
thread of `StopNonBlocking`. -/
def isStopRequest : Effect → Bool
  | .appStop _ => true
  | .threadStart _ => true
  | _ => false

/-- The closures passed to `addHandler` for one event kind in a trace, in order. -/
def handlersFor (t : List Effect) (event : Events) : List Lambda :=
  t.filterMap fun e => match e with
    | .conAddHandler ev l => if ev = event then some l else none
    | _ => none

/-- The stop requests in a trace. -/
def stopRequests (t : List Effect) : List Effect := t.filter isStopRequest

/-! ## Specification-side notions for the host list -/

/-- The language of a pattern, read off the regular expression: a text matches when it is a
concatenation of one segment per atom, each segment made of characters of the class of the
atom and of a length within the bounds of the atom. -/
def MatchesAtoms : List Atom → List Char → Prop
  | [], m => m = []
  | a :: rest, m =>
    ∃ seg tl, m = seg ++ tl ∧ a.lo ≤ seg.length ∧ seg.length ≤ a.hi ∧
      (∀ c ∈ seg, a.cls c = true) ∧ MatchesAtoms rest tl

/-- Consecutive atoms have disjoint classes and every atom but the first is mandatory. For
such a pattern the end of every segment but the last is forced by the input. -/
def Separated : List Atom → Prop
  | [] => True
  | [_] => True
  | a :: b :: rest =>
    1 ≤ b.lo ∧ (∀ c, a.cls c = true → b.cls c = false) ∧ Separated (b :: rest)

/-- The line contains a substring matching the address pattern. -/
def HasMatch (h : List Char) : Prop :=
  ∃ pre m post, h = pre ++ m ++ post ∧ MatchesAtoms pattern m

/-- The text `m` is the first match of the address pattern in the line: a matching substring
such that no matching substring starts further to the left, and none starting at the same
place is longer. -/
def FirstMatch (h m : List Char) : Prop :=
  ∃ pre post, h = pre ++ m ++ post ∧ MatchesAtoms pattern m ∧
    ∀ pre2 m2 post2, h = pre2 ++ m2 ++ post2 → MatchesAtoms pattern m2 →
      pre.length ≤ pre2.length ∧ (pre2.length = pre.length → m2.length ≤ m.length)

/-- The list `ms` holds, in order, the first match of every line that has a match, and
nothing for the lines that have none. -/
inductive Picks : List (List Char) → List (List Char) → Prop where
  | nil : Picks [] []
  | skip {h : List Char} {hs ms : List (List Char)} :
      ¬ HasMatch h → Picks hs ms → Picks (h :: hs) ms
  | take {h m : List Char} {hs ms : List (List Char)} :
      FirstMatch h m → Picks hs ms → Picks (h :: hs) (m :: ms)

/-- The entries of a semicolon-separated host list (no entries for the empty list). -/
def hostEntries (brchost : List Char) : List (List Char) :=
  if brchost = [] then [] else brchost.splitOn ';'

/-- Decimal value of a digit string. -/
def octetValue (o : List Char) : Nat :=
  o.foldl (fun n c => 10 * n + (c.toNat - 48)) 0

/-- One to three decimal digits. -/
def isOctetText (o : List Char) : Bool :=
  decide (1 ≤ o.length) && decide (o.length ≤ 3) && o.all isDigit09

/-- Four dot-separated groups of one to three decimal digits. -/
def isDottedQuad (e : List Char) : Bool :=
  match e.splitOn '.' with
  | [a, b, c, d] => isOctetText a && isOctetText b && isOctetText c && isOctetText d
  | _ => false

/-- A well-formed IPv4 address: four dot-separated decimal octets, each in the range
0..255. -/
def isIPv4 (e : List Char) : Bool :=
  match e.splitOn '.' with
  | [a, b, c, d] =>
    isOctetText a && isOctetText b && isOctetText c && isOctetText d &&
      decide (octetValue a ≤ 255) && decide (octetValue b ≤ 255) &&
      decide (octetValue c ≤ 255) && decide (octetValue d ≤ 255)
  | _ => false

/-! ## Concrete configurations used to exercise the model -/

/-- A line splitter standing in for `ClientOpt::split`. -/
def splitOnChar (s : List Char) (c : Char) : List (List Char) := s.splitOn c

/-- An environment in which every collaborator succeeds and `eth0` has one address. -/
def Env.quiet : Env :=
  { exec_eth0 := .ok "2: eth0: <UP>\n    inet 192.168.1.5/24 brd 192.168.1.255\n".toList
    exec_wlan0 := .ok []
    split := splitOnChar
    conCreate := .ok 1
    conStartBroadcast := .returns
    conAddHandler := fun _ => .returns
    makeEmptyDir := .returns
    appStop := fun _ => .returns
    conStop := .returns
    threadCreate := .returns
    fork := 0
    setsid := 1 }

/-- An environment in which `s_app->stop` throws a `std::exception`. -/
def Env.stopThrows : Env :=
  { Env.quiet with appStop := fun _ => .throws (.stdException "stop failed") }

/-- An environment in which `con_server->stop()` throws a `std::exception`. -/
def Env.conStopThrows : Env :=
  { Env.quiet with conStop := .throws (.stdException "stop failed") }

/-- A slave build for the 125-14 board. -/
def Build.z10Slave : Build :=
  { board := .Z10, streamingMaster := false, FILE_PATH := "/tmp/stream_files" }

/-- Foreground options. -/
def ClientOpt.foreground : ClientOpt :=
  { background := false, conf_file := "/root/.streaming_config", config_port := "8901",
    broadcast_port := "8902" }

/-- A state in which a streaming session is running (`s_app` and `s_manger` non-null). -/
def State.running : State :=
  { State.init with s_app := some 7, s_manger := some 8 }

/-! ## Further parts of `main` -/

/-- The local variables `main` declares at lines 122-134, with their initial values; no live
statement assigns to them afterwards. -/
structure Locals where
  ch1_off : Int
  ch2_off : Int
  ch1_gain : Int
  ch2_gain : Int
  filterBypass : Bool
  aa_ch1 : Nat
  bb_ch1 : Nat
  kk_ch1 : Nat
  pp_ch1 : Nat
  aa_ch2 : Nat
  bb_ch2 : Nat
  kk_ch2 : Nat
  pp_ch2 : Nat
  deriving DecidableEq, Repr

/-- Initial values of the locals (lines 122-134). -/
def mainLocals : Locals :=
  { ch1_off := 0, ch2_off := 0, ch1_gain := 1, ch2_gain := 1, filterBypass := true,
    aa_ch1 := 0, bb_ch1 := 0, kk_ch1 := 0xFFFFFF, pp_ch1 := 0,
    aa_ch2 := 0, bb_ch2 := 0, kk_ch2 := 0xFFFFFF, pp_ch2 := 0 }

/-- Lines 108-345: everything `main` does before the wait loop. -/
def mainBeforeLoop (env : Env) (build : Build) (opt : ClientOpt) : Flow :=
  match mainDaemonize env opt (mainProlog build State.init) with
  | .next s1 =>
    match mainSetup env build opt s1 with
    | .next s2 => mainStart env build s2
    | f => f
  | f => f

/-- The `catch (std::exception& e)` clause of lines 460-464: two log lines, after which
control continues behind the `try` statement. -/
def mainFinalCatch (what : String) (s : State) : State :=
  (s.emit (.stderrWrite ("Error: main() " ++ what ++ "\n"))).emit
    (.syslogWrite .LOG_ERR ("Error: main() " ++ what ++ "\n"))

/-- Lines 465-469: what follows the final `try` statement. -/
def mainEpilogue (env : Env) (s : State) : Flow :=
  let s1 := s.emit .conStop
  match env.conStop with
  | .throws e => .uncaught e s1
  | .returns =>
    let s2 := s1.emit (.stdoutWrite "streaming-server stopped.\n")
    let s3 := s2.emit (.syslogWrite .LOG_INFO "streaming-server stopped.")
    .exited EXIT_SUCCESS (s3.emit (.sys "closelog"))

/-- The calls of `con_server->stop()` in a trace. -/
def conStops (t : List Effect) : List Effect := t.filter (fun e => e == .conStop)

/-! ## The equalization filter of the calibration stage -/

/-- The four fixed-point coefficients of one channel. -/
structure FilterCoefficients where
  aa : Nat
  bb : Nat
  kk : Nat
  pp : Nat
  deriving DecidableEq, Repr

/-- The state the filter carries from one sample to the next: the previous input and the
previous output. -/
structure FilterState where
  prevIn : Int
  prevOut : Int
  deriving DecidableEq, Repr

/-- Modelled from the spec: the `filter` operation of the Calibration/Filter Stage, whose
implementation (the oscilloscope object behind `setFilterCalibrationCh1`, `setFilterBypass`) is
not part of the sources. The spec gives a streaming 2-pole IIR whose state is the previous
input/output pair, and a bypass flag that disables the filter entirely. The difference
equation is not given by the spec and is the parameter `iir`. The result is the output
stream and the state left for the next call. -/
def filter (iir : FilterCoefficients → FilterState → Int → Int) (bypass : Bool)
    (c : FilterCoefficients) : FilterState → List Int → List Int × FilterState
  | st, [] => ([], st)
  | st, x :: xs =>
    let y := if bypass then x else iir c st x
    let r := filter iir bypass c { prevIn := x, prevOut := y } xs
    (y :: r.1, r.2)

/-- The coefficients `main` holds for channel 1. -/
def Locals.coefficientsCh1 (l : Locals) : FilterCoefficients :=
  { aa := l.aa_ch1, bb := l.bb_ch1, kk := l.kk_ch1, pp := l.pp_ch1 }

/-- The coefficients `main` holds for channel 2. -/
def Locals.coefficientsCh2 (l : Locals) : FilterCoefficients :=
  { aa := l.aa_ch2, bb := l.bb_ch2, kk := l.kk_ch2, pp := l.pp_ch2 }

end ConsoleServer

/-!
# Spectrum analyzer FPGA interface: `api/src/spec_fpga.h`

The constants of the header are natural numbers; the register struct is a list of fields
laid out by the usual C rule (each field at the next offset that is a multiple of its
alignment), with `uint32_t` of size and alignment 4.
-/

namespace SpectrFpga

/-- Macro `SPECTR_FPGA_BASE_ADDR`. -/
def SPECTR_FPGA_BASE_ADDR : Nat := 0x00100000

/-- Macro `SPECTR_FPGA_BASE_SIZE`. -/
def SPECTR_FPGA_BASE_SIZE : Nat := 0x00030000

/-- Macro `SPECTR_FPGA_CONF_ARM_BIT`. -/
def SPECTR_FPGA_CONF_ARM_BIT : Nat := 1

/-- Macro `SPECTR_FPGA_CONF_RST_BIT`. -/
def SPECTR_FPGA_CONF_RST_BIT : Nat := 2

/-- Macro `SPECTR_FPGA_BUFFER_FILL`. -/
def SPECTR_FPGA_BUFFER_FILL : Nat := 0x00000010

/-- Macro `SPECTR_FPGA_TRIG_SRC_MASK`. -/
def SPECTR_FPGA_TRIG_SRC_MASK : Nat := 0x00000007

/-- Macro `SPECTR_FPGA_CHA_THR_MASK`. -/
def SPECTR_FPGA_CHA_THR_MASK : Nat := 0x00003fff

/-- Macro `SPECTR_FPGA_CHB_THR_MASK`. -/
def SPECTR_FPGA_CHB_THR_MASK : Nat := 0x00003fff

/-- Macro `SPECTR_FPGA_TRIG_DLY_MASK`. -/
def SPECTR_FPGA_TRIG_DLY_MASK : Nat := 0xffffffff

/-- Macro `SPECTR_FPGA_DATA_DEC_MASK`. -/
def SPECTR_FPGA_DATA_DEC_MASK : Nat := 0x0001ffff

/-- Macro `SPECTR_FPGA_CHA_OFFSET`. -/
def SPECTR_FPGA_CHA_OFFSET : Nat := 0x10000

/-- Macro `SPECTR_FPGA_CHB_OFFSET`. -/
def SPECTR_FPGA_CHB_OFFSET : Nat := 0x20000

/-- One member of a C struct. -/
structure CField where
  name : String
  size : Nat
  align : Nat
  deriving DecidableEq, Repr

/-- A member of type `uint32_t`. -/
def uint32_t (name : String) : CField := { name := name, size := 4, align := 4 }

/-- The members of `spectr_fpga_reg_mem_t` in declaration order (lines 38-175). -/
def spectr_fpga_reg_mem_t : List CField :=
  [uint32_t "conf", uint32_t "trig_source", uint32_t "cha_thr", uint32_t "chb_thr",
   uint32_t "trigger_delay", uint32_t "data_dec", uint32_t "wr_ptr_cur",
   uint32_t "wr_ptr_trigger", uint32_t "cha_hystersis", uint32_t "chb_hystersis",
   uint32_t "other", uint32_t "reserved",
   uint32_t "cha_filt_aa", uint32_t "cha_filt_bb", uint32_t "cha_filt_kk",
   uint32_t "cha_filt_pp",
   uint32_t "chb_filt_aa", uint32_t "chb_filt_bb", uint32_t "chb_filt_kk",
   uint32_t "chb_filt_pp"]

/-- The least multiple of `align` that is at least `off`. -/
def alignUp (off align : Nat) : Nat := (off + align - 1) / align * align

/-- Byte offsets of the members, laid out from offset `off` onwards. -/
def offsetsFrom : Nat → List CField → List (String × Nat)
  | _, [] => []
  | off, f :: rest =>
    (f.name, alignUp off f.align) :: offsetsFrom (alignUp off f.align + f.size) rest

/-- Offset just behind the last member. -/
def endFrom : Nat → List CField → Nat
  | off, [] => off
  | off, f :: rest => endFrom (alignUp off f.align + f.size) rest

/-- Alignment of the struct: the largest member alignment. -/
def structAlign (fields : List CField) : Nat := fields.foldl (fun a f => max a f.align) 1

/-- Value of `sizeof` for the struct: the end offset rounded up to the struct alignment. -/
def structSize (fields : List CField) : Nat := alignUp (endFrom 0 fields) (structAlign fields)

/-- Value of `offsetof` for a member. -/
def offsetOf (fields : List CField) (name : String) : Option Nat :=
  (offsetsFrom 0 fields).lookup name

/-- A bit range `[hi:lo]` of a register, as the member comments give it. -/
structure BitRange where
  hi : Nat
  lo : Nat
  deriving DecidableEq, Repr

/-- The mask with exactly the bits of the range set. -/
def BitRange.mask (r : BitRange) : Nat := 2 ^ (r.hi + 1) - 2 ^ r.lo

/-- Number of bits in the range. -/
def BitRange.width (r : BitRange) : Nat := r.hi + 1 - r.lo

/-- Documented ranges (member comments of lines 39-170): `arm_trigger` is bit 0 of `conf`. -/
def doc_conf_arm_trigger : BitRange := { hi := 0, lo := 0 }

/-- Bit 1 of `conf`: `rst_wr_state_machine`. -/
def doc_conf_rst_wr_state_machine : BitRange := { hi := 1, lo := 1 }

/-- Bit 4 of `conf`: all data written to buffer. -/
def doc_conf_buffer_filled : BitRange := { hi := 4, lo := 4 }

/-- Bits `[2:0]` of `trig_source`. -/
def doc_trig_source : BitRange := { hi := 2, lo := 0 }

/-- Bits `[13:0]` of `cha_thr`. -/
def doc_cha_thr : BitRange := { hi := 13, lo := 0 }

/-- Bits `[13:0]` of `chb_thr`. -/
def doc_chb_thr : BitRange := { hi := 13, lo := 0 }

/-- Bits `[31:0]` of `trigger_delay`. -/
def doc_trigger_delay : BitRange := { hi := 31, lo := 0 }

/-- Bits `[16:0]` of `data_dec`. -/
def doc_data_dec : BitRange := { hi := 16, lo := 0 }

/-- Bits `[17:0]` of `cha_filt_aa` and `chb_filt_aa`. -/
def doc_filt_aa : BitRange := { hi := 17, lo := 0 }

/-- Bits `[24:0]` of the `bb` coefficient registers. -/
def doc_filt_bb : BitRange := { hi := 24, lo := 0 }

/-- Bits `[24:0]` of the `kk` coefficient registers. -/
def doc_filt_kk : BitRange := { hi := 24, lo := 0 }

/-- Bits `[24:0]` of the `pp` coefficient registers. -/
def doc_filt_pp : BitRange := { hi := 24, lo := 0 }

/-- Legal decimation factors listed in the comment of `data_dec` (line 90). -/
def legalDecimations : List Nat := [1, 8, 64, 1024, 8192, 65536]

/-- Trigger sources listed in the comment of `trig_source` (lines 55-64); 8 and 9 are marked
as existing only on the 250-12 board. -/
def documentedTrigSources : List Nat := [1, 2, 3, 4, 5, 6, 7, 8, 9]

/-- Number of samples in each channel buffer (comment of lines 173-174, and the maximum named
at lines 209-213). -/
def SIGNAL_LENGTH : Nat := 16384

/-- Bytes per sample in the channel buffers (they are read through `int` pointers). -/
def SAMPLE_BYTES : Nat := 4

/-- A range of byte offsets `[base, base + size)` inside the mapped window. -/
structure Region where
  base : Nat
  size : Nat
  deriving DecidableEq, Repr

/-- First offset behind the region. -/
def Region.stop (r : Region) : Nat := r.base + r.size

/-- Whether two regions have no byte in common. -/
def Region.disjoint (a b : Region) : Bool := decide (a.stop ≤ b.base) || decide (b.stop ≤ a.base)

/-- Whether a byte offset lies in the region. -/
def Region.contains (r : Region) (x : Nat) : Bool := decide (r.base ≤ x) && decide (x < r.stop)

/-- The register block at the start of the window. -/
def registerBlock : Region := { base := 0, size := structSize spectr_fpga_reg_mem_t }

/-- The ChA sample buffer. -/
def chaData : Region := { base := SPECTR_FPGA_CHA_OFFSET, size := SIGNAL_LENGTH * SAMPLE_BYTES }

/-- The ChB sample buffer. -/
def chbData : Region := { base := SPECTR_FPGA_CHB_OFFSET, size := SIGNAL_LENGTH * SAMPLE_BYTES }

/-- The whole mapped window. -/
def window : Region := { base := 0, size := SPECTR_FPGA_BASE_SIZE }

end SpectrFpga

/-!
# Signal generator register interface: `rp-api/api/src/generate.c`

The memory-mapped register block behind the pointer `generate` is the record `GenState`:
its first 32-bit word (what `(uint32_t *) generate` points to) is `control`, the two
`ch_properties_t` blocks are records of the registers the functions below touch, and the two
sample buffers `data_ch[0]`, `data_ch[1]` are functions from the array index to the stored
count, so that a write outside the buffer is still a write the model records. Hardware
profile, calibration store and `cmn_convertToCnt` are outside the file and are the fields of
`Hw`; `float` and `double` are the type parameters `F` and `D`.
-/

namespace Generate

/-- Channel selector `rp_channel_t`; the two values the file names. -/
inductive rp_channel_t where
  | RP_CH_1
  | RP_CH_2
  deriving DecidableEq, Repr

/-- Integer value of a channel, as used in `data_ch[channel]`. -/
def rp_channel_t.index : rp_channel_t → Nat
  | .RP_CH_1 => 0
  | .RP_CH_2 => 1

/-- Output gain selector `rp_gen_gain_t`; `other` is any value the `switch` statements send to
their `default` branch. -/
inductive rp_gen_gain_t where
  | RP_GAIN_1X
  | RP_GAIN_5X
  | other (value : Int)
  deriving DecidableEq, Repr

/-- Calibration selector passed to `rp_CalibGetFastDACCalibValue`. -/
inductive rp_gen_gain_calib_t where
  | RP_GAIN_CALIB_1X
  | RP_GAIN_CALIB_5X
  deriving DecidableEq, Repr

/-- Return codes of the file. -/
inductive RpStatus where
  | RP_OK
  | RP_EOOR
  | RP_EPN
  | RP_NOTS
  deriving DecidableEq, Repr

/-- An error return: the code and the line written to stderr. -/
structure Failure where
  status : RpStatus
  stderr : String
  deriving DecidableEq, Repr

/-- The registers of one `ch_properties_t` block that the embedded functions touch. -/
structure ch_properties_t where
  amplitudeScale : Int
  amplitudeOffset : Int
  counterWrap : Nat
  deriving DecidableEq, Repr

/-- The generator register block and sample buffers. -/
structure GenState where
  control : Nat
  properties_chA : ch_properties_t
  properties_chB : ch_properties_t
  data_chA : Int → Int
  data_chB : Int → Int
  debug : List (String × Int)

/-- Record one `cmn_Debug` / `cmn_DebugCh` call (label and value). -/
def GenState.note (s : GenState) (label : String) (value : Int) : GenState :=
  { s with debug := s.debug ++ [(label, value)] }

/-- The properties block `getChannelPropertiesAddress` selects. -/
def GenState.properties (s : GenState) : rp_channel_t → ch_properties_t
  | .RP_CH_1 => s.properties_chA
  | .RP_CH_2 => s.properties_chB

/-- Store into the properties block `getChannelPropertiesAddress` selects. -/
def GenState.setProperties (s : GenState) (channel : rp_channel_t) (p : ch_properties_t) :
    GenState :=
  match channel with
  | .RP_CH_1 => { s with properties_chA := p }
  | .RP_CH_2 => { s with properties_chB := p }

/-- The buffer `data_ch[channel]`. -/
def GenState.data (s : GenState) : rp_channel_t → (Int → Int)
  | .RP_CH_1 => s.data_chA
  | .RP_CH_2 => s.data_chB

/-- Replace the contents of `data_ch[channel]`. -/
def GenState.setData (s : GenState) (channel : rp_channel_t) (buf : Int → Int) : GenState :=
  match channel with
  | .RP_CH_1 => { s with data_chA := buf }
  | .RP_CH_2 => { s with data_chB := buf }

/-- Modelled from the spec: `cmn_SetBits` of `common.c`, which is not part of the sources,
taken as the claim about `generate_ResetSM` words it: the bits are OR-ed into the 32-bit
word. -/
def cmn_SetBits (field bits _mask : Nat) : Nat := field ||| bits

/-- Modelled from the spec: `cmn_UnsetBits` of `common.c`, which is not part of the sources,
taken as the claim about `generate_ResetSM` words it: the word is AND-ed with the 32-bit
complement of the bits. -/
def cmn_UnsetBits (field bits _mask : Nat) : Nat := field &&& (0xFFFFFFFF ^^^ bits)

/-- Function `generate_ResetSM` (lines 219-226). -/
def generate_ResetSM (s : GenState) : GenState × RpStatus :=
  let s1 := s.note "cmn_SetBits((uint32_t *) generate) mask 0x00400040" 0x00400040
  let s2 := { s1 with control := cmn_SetBits s1.control 0x00400040 0x00400040 }
  let s3 := s2.note "cmn_UnsetBits((uint32_t *) generate) mask 0x00400040" 0x00400040
  ({ s3 with control := cmn_UnsetBits s3.control 0x00400040 0x00400040 }, .RP_OK)

/-- Function `generate_ResetChannelSM` (lines 228-235). -/
def generate_ResetChannelSM (channel : rp_channel_t) (s : GenState) : GenState × RpStatus :=
  let value : Nat := if channel = .RP_CH_1 then 0x00000040 else 0x00400000
  let s1 := s.note "cmn_SetBits((uint32_t *) generate) mask 0x00400040" value
  let s2 := { s1 with control := cmn_SetBits s1.control value value }
  let s3 := s2.note "cmn_UnsetBits((uint32_t *) generate) mask 0x00400040" value
  ({ s3 with control := cmn_UnsetBits s3.control value value }, .RP_OK)

/-- The `uint32_t` expression `65536 * size - 1`. -/
def wrapCounterValue (size : Nat) : Nat := (65536 * size % 2 ^ 32 + (2 ^ 32 - 1)) % 2 ^ 32

/-- Function `generate_setWrapCounter` (lines 91-97). -/
def generate_setWrapCounter (channel : rp_channel_t) (size : Nat) (s : GenState) :
    GenState × RpStatus :=
  let s1 := s.note "generate->properties_ch_.counterWrap" (wrapCounterValue size)
  (s1.setProperties channel { s1.properties channel with counterWrap := wrapCounterValue size },
    .RP_OK)

/-- What lies outside `generate.c`: hardware profile, calibration store, count conversion and
the implicit numeric conversions, over a type `F` for `float` and `D` for `double`. -/
structure Hw (F D : Type) where
  /-- Function `convertCh`. -/
  convertCh : rp_channel_t → Nat
  /-- Result of `rp_HPGetFastDACFullScale`; `none` when it does not return `RP_HP_OK`. -/
  fastDACFullScale : Nat → Option F
  /-- Result of `rp_HPGetFastDACBits`; `none` when it does not return `RP_HP_OK`. -/
  fastDACBits : Nat → Option Nat
  /-- Result of `rp_HPGetFastDACIsSigned`; `none` when it does not return `RP_HP_OK`. -/
  fastDACIsSigned : Nat → Option Bool
  /-- Result of `rp_HPGetIsGainDACx5`; `none` when it does not return `RP_HP_OK`. -/
  isGainDACx5 : Option Bool
  /-- Result of `rp_CalibGetFastDACCalibValue`: gain and offset, or the error code when it
  does not return `RP_HW_CALIB_OK`. -/
  calibValue : Nat → rp_gen_gain_calib_t → Except Int (D × Int)
  /-- Function `cmn_convertToCnt(voltage, bits, fullScale, is_signed, gain, offset)`. -/
  convertToCnt : F → Nat → F → Bool → D → Int → Int
  /-- Conversion of a register value to `float`. -/
  ofReg : Int → F
  /-- Conversion of an `int32_t` to `float`. -/
  ofCnt : Int → F
  /-- The `float` value 1. -/
  one : F
  /-- The `double` value 1. -/
  oneD : D

/-- What the common preamble of the amplitude and offset functions collects. -/
structure DacSetup (F D : Type) where
  fs : F
  bits : Nat
  is_sign : Bool
  gain_calib : D
  offset_calib : Int

/-- The part that `generate_setAmplitude`, `generate_getAmplitude`, `generate_setDCOffset` and
`generate_getDCOffset` have in common (for the last: lines 463-512): the profile queries, the
x5-gain check and the calibration lookup, each with its error return; `fn` is the function
name that appears in the messages. -/
def dacSetup {F D : Type} (hw : Hw F D) (fn : String) (channel : rp_channel_t)
    (gain : rp_gen_gain_t) : Except Failure (DacSetup F D) :=
  match hw.fastDACFullScale (hw.convertCh channel) with
  | none => .error ⟨.RP_NOTS, "[Error:" ++ fn ++ "] Can\x27t get fast DAC full scale\n"⟩
  | some fs =>
    match hw.fastDACBits (hw.convertCh channel) with
    | none => .error ⟨.RP_NOTS, "[Error:" ++ fn ++ "] Can\x27t get fast DAC bits\n"⟩
    | some bits =>
      match hw.fastDACIsSigned (hw.convertCh channel) with
      | none => .error ⟨.RP_NOTS, "[Error:" ++ fn ++ "] Can\x27t get fast DAC sign value\n"⟩
      | some is_sign =>
        match hw.isGainDACx5 with
        | none => .error ⟨.RP_NOTS, "[Error:" ++ fn ++ "] Can\x27t get fast DAC x5 gain\n"⟩
        | some x5_gain =>
          if !x5_gain && gain == .RP_GAIN_5X then
            .error ⟨.RP_NOTS, "[Error:" ++ fn ++ "] Can\x27t set gain on unsupported board\n"⟩
          else
            let lookup : Except Failure (Except Int (D × Int)) :=
              match gain with
              | .RP_GAIN_1X => .ok (hw.calibValue (hw.convertCh channel) .RP_GAIN_CALIB_1X)
              | .RP_GAIN_5X => .ok (hw.calibValue (hw.convertCh channel) .RP_GAIN_CALIB_5X)
              | .other v =>
                .error ⟨.RP_EOOR, "[Error:" ++ fn ++ "] Unknown gain: " ++ toString v ++ "\n"⟩
            match lookup with
            | .error e => .error e
            | .ok (.error ret) =>
              .error ⟨.RP_EOOR,
                "[Error:" ++ fn ++ "] Error get calibaration: " ++ toString ret ++ "\n"⟩
            | .ok (.ok (gain_calib, offset_calib)) =>
              .ok { fs := fs, bits := bits, is_sign := is_sign, gain_calib := gain_calib,
                    offset_calib := offset_calib }

/-- Function `generate_setAmplitude` (lines 271-335): the converted amplitude, with calibration
offset 0, goes to `amplitudeScale`. -/
def generate_setAmplitude {F D : Type} (hw : Hw F D) (channel : rp_channel_t)
    (gain : rp_gen_gain_t) (amplitude : F) (s : GenState) : Except Failure GenState :=
  match dacSetup hw "generate_setAmplitude" channel gain with
  | .error e => .error e
  | .ok d =>
    let value := hw.convertToCnt amplitude d.bits d.fs d.is_sign d.gain_calib 0
    let s1 := s.note "ch_properties->amplitudeScale" value
    .ok (s1.setProperties channel { s1.properties channel with amplitudeScale := value })

/-- Function `generate_setDCOffset` (lines 397-459): the converted offset goes to
`amplitudeOffset`. -/
def generate_setDCOffset {F D : Type} (hw : Hw F D) (channel : rp_channel_t)
    (gain : rp_gen_gain_t) (offset : F) (s : GenState) : Except Failure GenState :=
  match dacSetup hw "generate_setDCOffset" channel gain with
  | .error e => .error e
  | .ok d =>
    let value := hw.convertToCnt offset d.bits d.fs d.is_sign d.gain_calib d.offset_calib
    let s1 := s.note "ch_properties->amplitudeOffset" value
    .ok (s1.setProperties channel { s1.properties channel with amplitudeOffset := value })

/-- Function `generate_getDCOffset` (lines 461-521): line 517 passes the register
`ch_properties->amplitudeScale` to the conversion. -/
def generate_getDCOffset {F D : Type} (hw : Hw F D) (channel : rp_channel_t)
    (gain : rp_gen_gain_t) (s : GenState) : Except Failure F :=
  match dacSetup hw "generate_getDCOffset" channel gain with
  | .error e => .error e
  | .ok d =>
    .ok (hw.ofCnt (hw.convertToCnt (hw.ofReg (s.properties channel).amplitudeScale)
      d.bits d.fs d.is_sign d.gain_calib d.offset_calib))

/-- The loop of lines 265-267, as the list of stores it performs (array index and stored
count), for the loop variable at `i` with `fuel` bounding the number of iterations; `N` is
`DAC_BUFFER_SIZE`, `start` the adjusted start, `cnt k` the conversion of `data[k]`. The index
is `i % DAC_BUFFER_SIZE` in `int` arithmetic, which truncates towards zero. -/
def writeLoop (N start : Int) (cnt : Int → Int) : Nat → Int → List (Int × Int)
  | 0, _ => []
  | fuel + 1, i =>
    if i < start + N then (Int.tmod i N, cnt (i - start)) :: writeLoop N start cnt fuel (i + 1)
    else []

/-- Perform a list of stores on a buffer, in order. -/
def applyWrites : List (Int × Int) → (Int → Int) → (Int → Int)
  | [], buf => buf
  | (j, v) :: rest, buf => applyWrites rest (fun x => if x = j then v else buf x)

/-- The value of `start` after line 264. -/
def adjustStart (N start : Int) : Int := if start < 0 then start + N else start

/-- The stores `generate_writeData` performs once its three profile queries have succeeded;
the loop runs `DAC_BUFFER_SIZE` times. -/
def writeDataStores {F D : Type} (hw : Hw F D) (N : Int) (data : Int → F) (start : Int)
    (bits : Nat) (is_sign : Bool) : List (Int × Int) :=
  writeLoop N (adjustStart N start)
    (fun k => hw.convertToCnt (data k) bits hw.one is_sign hw.oneD 0) N.toNat
    (adjustStart N start)

/-- Function `generate_writeData` (lines 238-269); `N` is the value of the macro
`DAC_BUFFER_SIZE`, whose header is not part of the sources. -/
def generate_writeData {F D : Type} (hw : Hw F D) (N : Int) (channel : rp_channel_t)
    (data : Int → F) (start : Int) (length : Nat) (s : GenState) : Except Failure GenState :=
  match hw.fastDACFullScale (hw.convertCh channel) with
  | none =>
    .error ⟨.RP_NOTS, "[Error:generate_writeData] Can\x27t get fast DAC full scale\n"⟩
  | some _ =>
    match hw.fastDACBits (hw.convertCh channel) with
    | none => .error ⟨.RP_NOTS, "[Error:generate_writeData] Can\x27t get fast DAC bits\n"⟩
    | some bits =>
      match hw.fastDACIsSigned channel.index with
      | none =>
        .error ⟨.RP_NOTS, "[Error:generate_writeData] Can\x27t get fast DAC sign value\n"⟩
      | some is_sign =>
        let s1 := (generate_setWrapCounter channel length s).1
        .ok (s1.setData channel
          (applyWrites (writeDataStores hw N data start bits is_sign) (s1.data channel)))

/-- Largest value of `int32_t`. -/
def INT32_MAX : Int := 2 ^ 31 - 1

/-- Least value of `int32_t`. -/
def INT32_MIN : Int := -(2 ^ 31)

/-! ## Concrete configurations used to exercise the generator model -/

/-- A register block with all registers and samples zero. -/
def GenState.zero : GenState :=
  { control := 0
    properties_chA := { amplitudeScale := 0, amplitudeOffset := 0, counterWrap := 0 }
    properties_chB := { amplitudeScale := 0, amplitudeOffset := 0, counterWrap := 0 }
    data_chA := fun _ => 0
    data_chB := fun _ => 0
    debug := [] }

/-- A stand-in for the hardware with integers for `float` and `double`: a signed 14-bit DAC
with full scale 1, calibration gain 1 and offset 0, and a conversion that scales by
`2 ^ (bits - 1)`, divides by gain and full scale and adds the offset. -/
def Hw.standIn : Hw Int Int :=
  { convertCh := rp_channel_t.index
    fastDACFullScale := fun _ => some 1
    fastDACBits := fun _ => some 14
    fastDACIsSigned := fun _ => some true
    isGainDACx5 := some false
    calibValue := fun _ _ => .ok (1, 0)
    convertToCnt := fun v bits fs _ gain off => v * 2 ^ (bits - 1) / (gain * fs) + off
    ofReg := fun r => r
    ofCnt := fun c => c
    one := 1
    oneD := 1 }

end Generate

namespace ConsoleServer

/-! ## Theorems -/

/-! ### Frame lemmas: what each piece of code leaves alone -/

@[simp]
theorem emit_g_run (s : State) (e : Effect) : (s.emit e).g_run = s.g_run := rfl

@[simp]
theorem emit_pointers (s : State) (e : Effect) : (s.emit e).pointers = s.pointers := rfl

@[simp]
theorem emit_s_app (s : State) (e : Effect) : (s.emit e).s_app = s.s_app := rfl

@[simp]
theorem emit_trace (s : State) (e : Effect) : (s.emit e).trace = s.trace ++ [e] := rfl

@[simp]
theorem state_next (s : State) : (Flow.next s).state = s := rfl

@[simp]
theorem state_exited (c : Int) (s : State) : (Flow.exited c s).state = s := rfl

@[simp]
theorem state_uncaught (e : Thrown) (s : State) : (Flow.uncaught e s).state = s := rfl

theorem setupCatch_g_run (e : Thrown) (s : State) : (setupCatch e s).state.g_run = s.g_run := by
  cases e <;> simp [setupCatch]

theorem addHandlerThen_g_run (env : Env) (event : Events) (l : Lambda) (s : State)
    (rest : State → Flow) (hrest : ∀ t, (rest t).state.g_run = t.g_run) :
    (addHandlerThen env event l s rest).state.g_run = s.g_run := by
  unfold addHandlerThen
  cases env.conAddHandler event with
  | returns => simp [hrest]
  | throws e => simp [setupCatch_g_run]

theorem mainSetup_g_run (env : Env) (build : Build) (opt : ClientOpt) (s : State) :
    (mainSetup env build opt s).state.g_run = s.g_run := by
  unfold mainSetup
  cases env.exec_eth0 with
  | error w => simp [setupCatch_g_run]
  | ok hosts =>
    cases env.exec_wlan0 with
    | error w => simp [setupCatch_g_run]
    | ok whosts =>
      cases env.conCreate with
      | error e => simp [setupCatch_g_run]
      | ok p =>
        cases env.conStartBroadcast with
        | throws e => simp [setupCatch_g_run]
        | returns =>
          simp only
          rw [addHandlerThen_g_run]
          · simp
          · intro t
            rw [addHandlerThen_g_run]
            intro t2
            rw [addHandlerThen_g_run]
            intro t3
            simp

theorem op_run_g_run (env : Env) (build : Build) (opt : ClientOpt) (op : Op) (s : State)
    (hop : ∀ signum, op ≠ .signal signum) : (op.run env build opt s).g_run = s.g_run := by
  cases op with
  | signal n => exact absurd rfl (hop n)
  | lambda l => cases l <;> simp [Op.run, runLambda]
  | stopServer x =>
    simp only [Op.run, StopServer]
    cases s.s_app with
    | none => rfl
    | some a =>
      simp only
      cases env.appStop false with
      | returns => simp
      | throws e => cases e <;> simp
  | stopNonBlocking x =>
    simp only [Op.run, StopNonBlocking]
    cases env.threadCreate with
    | returns => simp
    | throws e => cases e <;> simp
  | prolog =>
    simp only [Op.run, mainProlog]
    split <;> simp
  | daemonize =>
    simp only [Op.run, mainDaemonize]
    split_ifs <;> simp
  | setup => exact mainSetup_g_run env build opt s
  | start =>
    simp only [Op.run, mainStart, installTermSignalHandler, handleCloseChildEvents]
    cases env.makeEmptyDir with
    | returns => simp
    | throws e => cases e <;> simp
  | shutdown =>
    simp only [Op.run, mainShutdown]
    cases env.conStop with
    | returns => simp
    | throws e => simp

theorem op_run_keeps_stopped (env : Env) (build : Build) (opt : ClientOpt) (op : Op) (s : State)
    (h : s.g_run = false) : (op.run env build opt s).g_run = false := by
  by_cases hop : ∀ signum, op ≠ .signal signum
  · rw [op_run_g_run env build opt op s hop, h]
  · push_neg at hop
    obtain ⟨n, rfl⟩ := hop
    rfl

theorem runOps_keeps_stopped (env : Env) (build : Build) (opt : ClientOpt) (ops : List Op) :
    ∀ s : State, s.g_run = false → (runOps env build opt ops s).g_run = false := by
  induction ops with
  | nil => intro s h; exact h
  | cons op rest ih =>
    intro s h
    exact ih _ (op_run_keeps_stopped env build opt op s h)

/-! ### What a successful control-plane setup leaves behind -/

theorem addHandlerThen_next (env : Env) (event : Events) (l : Lambda) (s s' : State)
    (rest : State → Flow) (h : addHandlerThen env event l s rest = .next s') :
    rest (s.emit (.conAddHandler event l)) = .next s' := by
  unfold addHandlerThen at h
  cases hc : env.conAddHandler event with
  | returns => simpa [hc] using h
  | throws e =>
    rw [hc] at h
    cases e <;> simp [setupCatch] at h

theorem mainSetup_next (env : Env) (build : Build) (opt : ClientOpt) (s s' : State)
    (h : mainSetup env build opt s = .next s') :
    ∃ hosts whosts p, env.exec_eth0 = .ok hosts ∧ env.exec_wlan0 = .ok whosts ∧
      env.conCreate = .ok p ∧ s'.g_run = s.g_run ∧ s'.osc = s.osc ∧ s'.s_manger = s.s_manger ∧
      s'.s_app = s.s_app ∧ s'.con_server = some p ∧
      s'.trace = s.trace ++
        [.conCreate opt.conf_file (modeOf build.streamingMaster) "127.0.0.1" opt.config_port,
         .conStartBroadcast (modelOf build.board) (buildBrchost env.split hosts whosts)
           opt.broadcast_port,
         .conAddHandler .GET_NEW_SETTING .getNewSetting,
         .conAddHandler .START_STREAMING .startStreaming,
         .conAddHandler .STOP_STREAMING .stopStreaming] := by
  unfold mainSetup at h
  cases h1 : env.exec_eth0 with
  | error w => rw [h1] at h; simp [setupCatch] at h
  | ok hosts =>
    cases h2 : env.exec_wlan0 with
    | error w => rw [h1, h2] at h; simp [setupCatch] at h
    | ok whosts =>
      cases h3 : env.conCreate with
      | error e => rw [h1, h2, h3] at h; cases e <;> simp [setupCatch] at h
      | ok p =>
        cases h4 : env.conStartBroadcast with
        | throws e => rw [h1, h2, h3, h4] at h; cases e <;> simp [setupCatch] at h
        | returns =>
          rw [h1, h2, h3, h4] at h
          simp only at h
          have h5 := addHandlerThen_next _ _ _ _ _ _ h
          have h6 := addHandlerThen_next _ _ _ _ _ _ h5
          have h7 := addHandlerThen_next _ _ _ _ _ _ h6
          simp only [Flow.next.injEq] at h7
          subst h7
          exact ⟨hosts, whosts, p, rfl, rfl, rfl, by simp [State.emit]⟩

/-! ### Stop requests are absent from every phase of `main` -/

@[simp]
theorem stopRequests_append (t u : List Effect) :
    stopRequests (t ++ u) = stopRequests t ++ stopRequests u := by
  simp [stopRequests]

@[simp]
theorem stopRequests_empty : stopRequests [] = [] := rfl

@[simp]
theorem stopRequests_cons (e : Effect) (t : List Effect) :
    stopRequests (e :: t) = if isStopRequest e = true then e :: stopRequests t
      else stopRequests t := by
  simp only [stopRequests, List.filter_cons]

theorem setupCatch_stopRequests (e : Thrown) (s : State) :
    stopRequests (setupCatch e s).state.trace = stopRequests s.trace := by
  cases e <;> simp [setupCatch, isStopRequest]

theorem addHandlerThen_stopRequests (env : Env) (event : Events) (l : Lambda) (s : State)
    (rest : State → Flow)
    (hrest : ∀ t, stopRequests (rest t).state.trace = stopRequests t.trace) :
    stopRequests (addHandlerThen env event l s rest).state.trace = stopRequests s.trace := by
  unfold addHandlerThen
  cases env.conAddHandler event with
  | returns => simp [hrest, isStopRequest]
  | throws e => simp [setupCatch_stopRequests, isStopRequest]

theorem mainSetup_stopRequests (env : Env) (build : Build) (opt : ClientOpt) (s : State) :
    stopRequests (mainSetup env build opt s).state.trace = stopRequests s.trace := by
  unfold mainSetup
  cases env.exec_eth0 with
  | error w => simp [setupCatch_stopRequests]
  | ok hosts =>
    cases env.exec_wlan0 with
    | error w => simp [setupCatch_stopRequests]
    | ok whosts =>
      cases env.conCreate with
      | error e => simp [setupCatch_stopRequests, isStopRequest]
      | ok p =>
        cases env.conStartBroadcast with
        | throws e => simp [setupCatch_stopRequests, isStopRequest]
        | returns =>
          simp only
          rw [addHandlerThen_stopRequests]
          · simp [isStopRequest]
          · intro t
            rw [addHandlerThen_stopRequests]
            intro t2
            rw [addHandlerThen_stopRequests]
            intro t3
            simp

theorem mainProlog_stopRequests (build : Build) (s : State) :
    stopRequests (mainProlog build s).trace = stopRequests s.trace := by
  unfold mainProlog
  split <;> simp [isStopRequest]

theorem mainDaemonize_stopRequests (env : Env) (opt : ClientOpt) (s : State) :
    stopRequests (mainDaemonize env opt s).state.trace = stopRequests s.trace := by
  unfold mainDaemonize
  split_ifs <;> simp [isStopRequest]

theorem mainStart_stopRequests (env : Env) (build : Build) (s : State) :
    stopRequests (mainStart env build s).state.trace = stopRequests s.trace := by
  simp only [mainStart, installTermSignalHandler, handleCloseChildEvents]
  cases env.makeEmptyDir with
  | returns => simp [isStopRequest]
  | throws e => cases e <;> simp [isStopRequest]

theorem mainShutdown_stopRequests (env : Env) (s : State) :
    stopRequests (mainShutdown env s).state.trace = stopRequests s.trace := by
  unfold mainShutdown
  cases env.conStop with
  | returns => simp [isStopRequest]
  | throws e => simp [isStopRequest]

theorem termSignalHandler_stopRequests (signum : Int) (s : State) :
    stopRequests (termSignalHandler signum s).trace = stopRequests s.trace := by
  simp [termSignalHandler, isStopRequest]

theorem waitLoop_stopRequests (sched : List (Option Int)) :
    ∀ s s' : State, waitLoop sched s = some s' →
      stopRequests s'.trace = stopRequests s.trace := by
  induction sched with
  | nil =>
    intro s s' h
    unfold waitLoop at h
    split_ifs at h
    simp only [Option.some.injEq] at h
    rw [← h]
  | cons ev rest ih =>
    intro s s' h
    unfold waitLoop at h
    split_ifs at h
    · cases ev with
      | none => exact ih _ _ h
      | some n => rw [ih _ _ h, termSignalHandler_stopRequests]
    · simp only [Option.some.injEq] at h
      rw [← h]

theorem waitLoop_of_stopped (sched : List (Option Int)) (s : State) (h : s.g_run = false) :
    waitLoop sched s = some s := by
  cases sched <;> simp [waitLoop, h]

theorem waitLoop_terminates (sched : List (Option Int)) :
    ∀ s : State, (∃ n, some n ∈ sched) → ∃ s', waitLoop sched s = some s' := by
  induction sched with
  | nil => intro s h; simp at h
  | cons ev rest ih =>
    intro s h
    by_cases hg : s.g_run = true
    · cases ev with
      | none =>
        have hr : ∃ n, some n ∈ rest := by simpa using h
        simpa [waitLoop, hg] using ih s hr
      | some n =>
        refine ⟨termSignalHandler n s, ?_⟩
        simp only [waitLoop, hg, if_true]
        exact waitLoop_of_stopped _ _ rfl
    · exact ⟨s, waitLoop_of_stopped _ _ (by simpa using hg)⟩

theorem main_stopRequests (env : Env) (build : Build) (opt : ClientOpt)
    (sched : List (Option Int)) (f : Flow) (h : main env build opt sched = some f) :
    stopRequests f.state.trace = [] := by
  have h0 : stopRequests (mainProlog build State.init).trace = [] := by
    rw [mainProlog_stopRequests]; rfl
  have h1 := mainDaemonize_stopRequests env opt (mainProlog build State.init)
  rw [h0] at h1
  unfold main at h
  cases hd : mainDaemonize env opt (mainProlog build State.init) with
  | exited c s1 => rw [hd] at h h1; simp only [Option.some.injEq] at h; rw [← h]; exact h1
  | uncaught e s1 => rw [hd] at h h1; simp only [Option.some.injEq] at h; rw [← h]; exact h1
  | next s1 =>
    rw [hd] at h h1
    simp only [state_next] at h1
    have h2 := mainSetup_stopRequests env build opt s1
    rw [h1] at h2
    simp only at h
    cases hs : mainSetup env build opt s1 with
    | exited c s2 => rw [hs] at h h2; simp only [Option.some.injEq] at h; rw [← h]; exact h2
    | uncaught e s2 => rw [hs] at h h2; simp only [Option.some.injEq] at h; rw [← h]; exact h2
    | next s2 =>
      rw [hs] at h h2
      simp only [state_next] at h2
      have h3 := mainStart_stopRequests env build s2
      rw [h2] at h3
      simp only at h
      cases ht : mainStart env build s2 with
      | exited c s3 => rw [ht] at h h3; simp only [Option.some.injEq] at h; rw [← h]; exact h3
      | uncaught e s3 => rw [ht] at h h3; simp only [Option.some.injEq] at h; rw [← h]; exact h3
      | next s3 =>
        rw [ht] at h h3
        simp only [state_next] at h3
        simp only at h
        cases hw : waitLoop sched s3 with
        | none => rw [hw] at h; simp at h
        | some s4 =>
          rw [hw] at h
          simp only [Option.some.injEq] at h
          rw [← h, mainShutdown_stopRequests, waitLoop_stopRequests sched s3 s4 hw, h3]

theorem main_terminates (env : Env) (build : Build) (opt : ClientOpt)
    (sched : List (Option Int)) (hsig : ∃ n, some n ∈ sched) :
    ∃ f, main env build opt sched = some f := by
  unfold main
  cases mainDaemonize env opt (mainProlog build State.init) with
  | exited c s1 => exact ⟨_, rfl⟩
  | uncaught e s1 => exact ⟨_, rfl⟩
  | next s1 =>
    simp only
    cases mainSetup env build opt s1 with
    | exited c s2 => exact ⟨_, rfl⟩
    | uncaught e s2 => exact ⟨_, rfl⟩
    | next s2 =>
      simp only
      cases mainStart env build s2 with
      | exited c s3 => exact ⟨_, rfl⟩
      | uncaught e s3 => exact ⟨_, rfl⟩
      | next s3 =>
        simp only
        obtain ⟨s4, h4⟩ := waitLoop_terminates sched s3 hsig
        rw [h4]
        exact ⟨_, rfl⟩

theorem appStops_stopRequests (t : List Effect) : appStops (stopRequests t) = appStops t := by
  induction t with
  | nil => rfl
  | cons e rest ih =>
    simp only [stopRequests, appStops] at ih
    cases e <;> simp [stopRequests, appStops, isStopRequest, List.filter_cons, ih]

theorem stopRequests_nil (t : List Effect) (h : stopRequests t = []) :
    appStops t = [] ∧ ∀ x, Effect.threadStart x ∉ t := by
  constructor
  · rw [← appStops_stopRequests, h]; rfl
  · intro x hx
    have : Effect.threadStart x ∈ stopRequests t := List.mem_filter.mpr ⟨hx, rfl⟩
    rw [h] at this
    exact absurd this (List.not_mem_nil _)

/-! ### The run flag -/

/-- C2: after `termSignalHandler` the run flag `g_run` is false for every signal number and
every previous state; a second run of the handler leaves the flag and every other global as
the first run left them; every other piece of code in the translation unit leaves `g_run` as
it found it, so that once the flag is false it is false after any sequence of operations. -/
theorem termSignalHandler_clears_run_flag (env : Env) (build : Build) (opt : ClientOpt) :
    (∀ (signum : Int) (s : State), (termSignalHandler signum s).g_run = false) ∧
    (∀ (signum signum2 : Int) (s : State),
      (termSignalHandler signum2 (termSignalHandler signum s)).g_run
          = (termSignalHandler signum s).g_run ∧
      (termSignalHandler signum2 (termSignalHandler signum s)).pointers
          = (termSignalHandler signum s).pointers) ∧
    (∀ (op : Op) (s : State), (∀ signum, op ≠ .signal signum) →
      (op.run env build opt s).g_run = s.g_run) ∧
    (∀ (ops : List Op) (s : State), s.g_run = false →
      (runOps env build opt ops s).g_run = false) :=
  ⟨fun _ _ => rfl, fun _ _ _ => ⟨rfl, rfl⟩, fun op s h => op_run_g_run env build opt op s h,
    fun ops s h => runOps_keeps_stopped env build opt ops s h⟩

/-- C2, exercised: the handler stops a fresh process, and setup, a start request and shutdown
run afterwards do not set the flag again. -/
theorem termSignalHandler_clears_run_flag_witness :
    (termSignalHandler 15 State.init).g_run = false ∧
    (∀ signum, Op.setup ≠ .signal signum) ∧
    (Op.setup.run Env.quiet Build.z10Slave ClientOpt.foreground State.init).g_run
      = State.init.g_run ∧
    (runOps Env.quiet Build.z10Slave ClientOpt.foreground
      [.setup, .lambda .startStreaming, .signal 2, .shutdown]
      (termSignalHandler 15 State.init)).g_run = false :=
  ⟨rfl, fun _ h => Op.noConfusion h,
    (termSignalHandler_clears_run_flag Env.quiet Build.z10Slave ClientOpt.foreground).2.2.1
      .setup State.init (fun _ h => Op.noConfusion h),
    (termSignalHandler_clears_run_flag Env.quiet Build.z10Slave ClientOpt.foreground).2.2.2
      _ (termSignalHandler 15 State.init) rfl⟩

/-! ### Handler registration -/

/-- C3: when the control-plane setup of `main` completes without an exception, the calls it
has made consist of one `startBroadcast` call followed by exactly one `addHandler` call for
each of `GET_NEW_SETTING`, `START_STREAMING` and `STOP_STREAMING`, and none for any other
event kind; nothing is registered before `startBroadcast`. -/
theorem mainSetup_registers_three_handlers (env : Env) (build : Build) (opt : ClientOpt)
    (s s' : State) (h : mainSetup env build opt s = .next s') :
    ∃ t before b after, s'.trace = s.trace ++ t ∧ t = before ++ b :: after ∧
      isStartBroadcast b = true ∧
      (t.filter isStartBroadcast).length = 1 ∧
      (∀ e ∈ before, isAddHandler e = false) ∧
      registrations after = [.GET_NEW_SETTING, .START_STREAMING, .STOP_STREAMING] ∧
      (∀ ev : Events, (registrations t).count ev =
        if ev = .GET_NEW_SETTING ∨ ev = .START_STREAMING ∨ ev = .STOP_STREAMING then 1 else 0) := by
  obtain ⟨hosts, whosts, p, -, -, -, -, -, -, -, -, ht⟩ := mainSetup_next env build opt s s' h
  refine ⟨_, [_], _, [_, _, _], ht, rfl, rfl, rfl, ?_, rfl, ?_⟩
  · intro e he
    simp only [List.mem_singleton] at he
    subst he
    rfl
  · intro ev
    cases ev <;> simp [registrations]

/-- C3, exercised on an environment in which every collaborator succeeds. -/
theorem mainSetup_registers_three_handlers_witness :
    ∃ s', mainSetup Env.quiet Build.z10Slave ClientOpt.foreground State.init = .next s' ∧
      ∃ t before b after, s'.trace = State.init.trace ++ t ∧ t = before ++ b :: after ∧
        isStartBroadcast b = true ∧
        (t.filter isStartBroadcast).length = 1 ∧
        (∀ e ∈ before, isAddHandler e = false) ∧
        registrations after = [.GET_NEW_SETTING, .START_STREAMING, .STOP_STREAMING] ∧
        (∀ ev : Events, (registrations t).count ev =
          if ev = .GET_NEW_SETTING ∨ ev = .START_STREAMING ∨ ev = .STOP_STREAMING then 1
          else 0) :=
  ⟨_, rfl, mainSetup_registers_three_handlers Env.quiet Build.z10Slave ClientOpt.foreground
    State.init _ rfl⟩

/-- C4 as stated fails: in a state with a running session the `STOP_STREAMING` handler makes
no call of `s_app->stop(true)`. -/
theorem stop_streaming_handler_counterexample :
    State.running.s_app ≠ none ∧
    ¬ ∃ t, (runLambda .stopStreaming State.running).trace = State.running.trace ++ t ∧
      appStops t = [true] := by
  refine ⟨by decide, ?_⟩
  rintro ⟨t, ht, hstop⟩
  have : t = [] := by simpa [runLambda, State.running, State.init] using ht.symm
  rw [this] at hstop
  exact absurd hstop (by decide)

/-- C4, amended: the closure `main` registers for `STOP_STREAMING` has an empty body; running
it in any state leaves the state as it was, so it calls `s_app->stop` with neither flag. -/
theorem stop_streaming_handler_is_empty (env : Env) (build : Build) (opt : ClientOpt)
    (s s' : State) (h : mainSetup env build opt s = .next s') :
    (∃ t, s'.trace = s.trace ++ t ∧ handlersFor t .STOP_STREAMING = [.stopStreaming]) ∧
    (∀ q : State, runLambda .stopStreaming q = q) ∧
    (∀ q : State, appStops (runLambda .stopStreaming q).trace = appStops q.trace) := by
  obtain ⟨hosts, whosts, p, -, -, -, -, -, -, -, -, ht⟩ := mainSetup_next env build opt s s' h
  exact ⟨⟨_, ht, by simp [handlersFor]⟩, fun _ => rfl, fun _ => rfl⟩

/-- C4 amended, exercised on an environment in which every collaborator succeeds. -/
theorem stop_streaming_handler_is_empty_witness :
    ∃ s', mainSetup Env.quiet Build.z10Slave ClientOpt.foreground State.init = .next s' ∧
      (∃ t, s'.trace = State.init.trace ++ t ∧
        handlersFor t .STOP_STREAMING = [.stopStreaming]) ∧
      (∀ q : State, runLambda .stopStreaming q = q) ∧
      (∀ q : State, appStops (runLambda .stopStreaming q).trace = appStops q.trace) :=
  ⟨_, rfl, stop_streaming_handler_is_empty Env.quiet Build.z10Slave ClientOpt.foreground
    State.init _ rfl⟩

/-- C5 as stated fails: from the initial state, which has no running session, the
`START_STREAMING` handler leaves `s_app` and `s_manger` null. -/
theorem start_streaming_handler_counterexample :
    State.init.s_app = none ∧ State.init.s_manger = none ∧
    ¬ ((runLambda .startStreaming State.init).s_app ≠ none ∧
       (runLambda .startStreaming State.init).s_manger ≠ none) := by
  decide

/-- C5, amended: the closure `main` registers for `START_STREAMING` has an empty body; running
it in any state leaves the state as it was, so with no running session `s_app` and `s_manger`
are still null afterwards and nothing has been called. -/
theorem start_streaming_handler_is_empty (env : Env) (build : Build) (opt : ClientOpt)
    (s s' : State) (h : mainSetup env build opt s = .next s') :
    (∃ t, s'.trace = s.trace ++ t ∧ handlersFor t .START_STREAMING = [.startStreaming]) ∧
    (∀ q : State, runLambda .startStreaming q = q) ∧
    (∀ q : State, q.s_app = none → q.s_manger = none →
      (runLambda .startStreaming q).s_app = none ∧
      (runLambda .startStreaming q).s_manger = none) := by
  obtain ⟨hosts, whosts, p, -, -, -, -, -, -, -, -, ht⟩ := mainSetup_next env build opt s s' h
  exact ⟨⟨_, ht, by simp [handlersFor]⟩, fun _ => rfl, fun _ h1 h2 => ⟨h1, h2⟩⟩

/-- C5 amended, exercised on an environment in which every collaborator succeeds. -/
theorem start_streaming_handler_is_empty_witness :
    (∃ s', mainSetup Env.quiet Build.z10Slave ClientOpt.foreground State.init = .next s') ∧
    State.init.s_app = none ∧ State.init.s_manger = none ∧
    (runLambda .startStreaming State.init).s_app = none ∧
    (runLambda .startStreaming State.init).s_manger = none :=
  ⟨⟨_, rfl⟩, rfl, rfl,
    (start_streaming_handler_is_empty Env.quiet Build.z10Slave ClientOpt.foreground
      State.init _ rfl).2.2 State.init rfl rfl⟩

/-! ### `StopServer` -/

/-- C6: for every argument and state, `StopServer` calls `s_app->stop(false)` exactly once when
`s_app` is non-null and makes no outside call at all when it is null; it never calls
`stop(true)`; no `std::exception` leaves it, and one thrown by `stop` is absorbed (the function
returns normally); the globals are left as they were. -/
theorem StopServer_contract (env : Env) (x : Int) (s : State) :
    ∃ t, (StopServer env x s).1.trace = s.trace ++ t ∧
      (s.s_app ≠ none → appStops t = [false]) ∧
      (s.s_app = none → t = []) ∧
      true ∉ appStops t ∧
      (∀ what, (StopServer env x s).2 ≠ some (.stdException what)) ∧
      (∀ what, env.appStop false = .throws (.stdException what) →
        (StopServer env x s).2 = none) ∧
      (StopServer env x s).1.g_run = s.g_run ∧
      (StopServer env x s).1.pointers = s.pointers := by
  unfold StopServer
  cases hs : s.s_app with
  | none => exact ⟨[], by simp, by simp, by simp, by simp [appStops], by simp, by simp, rfl, rfl⟩
  | some a =>
    simp only
    cases hstop : env.appStop false with
    | returns =>
      exact ⟨[.appStop false], by simp, by simp [appStops], by simp, by simp [appStops],
        by simp, by simp, rfl, rfl⟩
    | throws e =>
      cases e with
      | stdException w =>
        exact ⟨[.appStop false, .stderrWrite ("Error: StopServer() " ++ w ++ "\n"),
          .syslogWrite .LOG_ERR ("Error: StopServer() " ++ w ++ "\n")], by simp,
          by simp [appStops], by simp, by simp [appStops], by simp, by simp, rfl, rfl⟩
      | nonStd =>
        exact ⟨[.appStop false], by simp, by simp [appStops], by simp, by simp [appStops],
          by simp, by simp, rfl, rfl⟩

/-- C6, exercised: with a running session and a throwing `stop`, one `stop(false)` call and a
normal return; with no session, no call. -/
theorem StopServer_contract_witness :
    State.running.s_app ≠ none ∧ State.init.s_app = none ∧
    Env.stopThrows.appStop false = .throws (.stdException "stop failed") ∧
    appStops (StopServer Env.stopThrows 0 State.running).1.trace = [false] ∧
    (StopServer Env.stopThrows 0 State.running).2 = none ∧
    (StopServer Env.stopThrows 0 State.init).1.trace = [] := by
  obtain ⟨t, ht, h1, -, -, -, h5, -, -⟩ := StopServer_contract Env.stopThrows 0 State.running
  obtain ⟨u, hu, -, h2, -⟩ := StopServer_contract Env.stopThrows 0 State.init
  refine ⟨by decide, rfl, rfl, ?_, h5 _ rfl, ?_⟩
  · rw [ht, ← h1 (by decide)]
    rfl
  · rw [hu, h2 rfl]
    rfl

/-! ### Shutdown path -/

/-- C7 as stated fails: in a run of `main` in which SIGTERM arrives during the wait loop and
clears the run flag, `main` returns `EXIT_SUCCESS` without any call of the application's
`stop` and without starting the `StopNonBlocking` thread. -/
theorem main_shutdown_counterexample :
    ∃ s, main Env.quiet Build.z10Slave ClientOpt.foreground [none, some 15]
        = some (.exited EXIT_SUCCESS s) ∧
      s.g_run = false ∧ false ∉ appStops s.trace ∧ ∀ x, Effect.threadStart x ∉ s.trace := by
  refine ⟨_, rfl, rfl, by decide, ?_⟩
  intro x
  have h := main_stopRequests Env.quiet Build.z10Slave ClientOpt.foreground [none, some 15]
    _ rfl
  exact (stopRequests_nil _ h).2 x

/-- C7, amended: once a termination signal is delivered during the wait loop `main` does come
to an end, and in every run of `main` that ends, however it ends, neither `main` nor the signal
handler has called the application's `stop` (with either flag) or started the
`StopNonBlocking` thread. -/
theorem main_never_stops_application (env : Env) (build : Build) (opt : ClientOpt)
    (sched : List (Option Int)) :
    ((∃ signum, some signum ∈ sched) → ∃ f, main env build opt sched = some f) ∧
    (∀ f, main env build opt sched = some f →
      appStops f.state.trace = [] ∧ ∀ x, Effect.threadStart x ∉ f.state.trace) :=
  ⟨fun hsig => main_terminates env build opt sched hsig,
    fun f h => stopRequests_nil _ (main_stopRequests env build opt sched f h)⟩

/-- C7 amended, exercised on a run in which SIGTERM arrives in the second loop iteration. -/
theorem main_never_stops_application_witness :
    (∃ signum, some signum ∈ [none, some (15 : Int)]) ∧
    ∃ f, main Env.quiet Build.z10Slave ClientOpt.foreground [none, some 15] = some f ∧
      appStops f.state.trace = [] ∧ ∀ x, Effect.threadStart x ∉ f.state.trace := by
  have hw := main_never_stops_application Env.quiet Build.z10Slave ClientOpt.foreground
    [none, some 15]
  obtain ⟨f, hf⟩ := hw.1 ⟨15, by simp⟩
  exact ⟨⟨15, by simp⟩, f, hf, hw.2 f hf⟩

/-! ### Effects of the signal handler -/

/-- C8 as stated fails: run from the initial state, `termSignalHandler` writes to stdout and
to the system log. -/
theorem termSignalHandler_output_counterexample :
    (termSignalHandler 15 State.init).trace.filter isOutput =
      [.stdoutWrite "\nReceived terminate signal. Exiting...\n",
       .syslogWrite .LOG_NOTICE "Received terminate signal. Exiting..."] ∧
    (termSignalHandler 15 State.init).trace.filter isOutput ≠ State.init.trace.filter isOutput := by
  decide

/-- C8, amended: `termSignalHandler` writes one fixed line to stdout and one fixed notice to
the system log, then sets `g_run` to false; it makes no other outside call and changes no
other global (`osc`, `s_manger`, `s_app` and `con_server` are as before). -/
theorem termSignalHandler_effects (signum : Int) (s : State) :
    (termSignalHandler signum s).trace = s.trace ++
      [.stdoutWrite "\nReceived terminate signal. Exiting...\n",
       .syslogWrite .LOG_NOTICE "Received terminate signal. Exiting..."] ∧
    (termSignalHandler signum s).g_run = false ∧
    (termSignalHandler signum s).osc = s.osc ∧
    (termSignalHandler signum s).s_manger = s.s_manger ∧
    (termSignalHandler signum s).s_app = s.s_app ∧
    (termSignalHandler signum s).con_server = s.con_server :=
  ⟨by simp [termSignalHandler], rfl, rfl, rfl, rfl, rfl⟩

/-! ### The matcher against the language of the pattern -/

theorem runLength_le_cap (p : Char → Bool) : ∀ (n : Nat) (s : List Char), runLength p n s ≤ n
  | 0, _ => by simp [runLength]
  | _ + 1, [] => by simp [runLength]
  | n + 1, c :: cs => by
    unfold runLength
    split
    · exact Nat.succ_le_succ (runLength_le_cap p n cs)
    · exact Nat.zero_le _

theorem runLength_le_length (p : Char → Bool) :
    ∀ (n : Nat) (s : List Char), runLength p n s ≤ s.length
  | 0, _ => by simp [runLength]
  | _ + 1, [] => by simp [runLength]
  | n + 1, c :: cs => by
    unfold runLength
    split
    · simpa using runLength_le_length p n cs
    · exact Nat.zero_le _

theorem runLength_take (p : Char → Bool) :
    ∀ (n : Nat) (s : List Char) (k : Nat), k ≤ runLength p n s → ∀ c ∈ s.take k, p c = true
  | 0, s, k, hk => by
    have : k = 0 := by simpa [runLength] using hk
    subst this
    simp
  | _ + 1, [], k, _ => by simp
  | n + 1, d :: ds, k, hk => by
    unfold runLength at hk
    split at hk
    · rename_i hd
      cases k with
      | zero => simp
      | succ j =>
        intro c hc
        simp only [List.take_succ_cons, List.mem_cons] at hc
        rcases hc with rfl | hc
        · exact hd
        · exact runLength_take p n ds j (Nat.le_of_succ_le_succ hk) c hc
    · have : k = 0 := by omega
      subst this
      simp

theorem le_runLength (p : Char → Bool) :
    ∀ (n : Nat) (seg tl : List Char), (∀ c ∈ seg, p c = true) → seg.length ≤ n →
      seg.length ≤ runLength p n (seg ++ tl)
  | _, [], _, _, _ => Nat.zero_le _
  | 0, _ :: _, _, _, hn => by simp at hn
  | n + 1, c :: cs, tl, hp, hn => by
    have hc : p c = true := hp c (List.mem_cons_self _ _)
    have htl : ∀ d ∈ cs, p d = true := fun d hd => hp d (List.mem_cons_of_mem _ hd)
    have hlen : cs.length ≤ n := by simpa using hn
    simp only [List.cons_append, runLength, hc, if_true, List.length_cons]
    exact Nat.succ_le_succ (le_runLength p n cs tl htl hlen)

theorem greedy_sound (cont : List Char → Option (List Char)) (lo : Nat) (s : List Char) :
    ∀ (n : Nat) (r : List Char), greedy cont lo s n = some r →
      ∃ k m, k ≤ n ∧ lo ≤ k ∧ cont (s.drop k) = some m ∧ r = s.take k ++ m := by
  intro n
  induction n with
  | zero =>
    intro r h
    unfold greedy at h
    split_ifs at h with h0
    exact ⟨0, r, Nat.le_refl _, by omega, by simpa using h, by simp⟩
  | succ j ih =>
    intro r h
    unfold greedy at h
    split_ifs at h with hlt
    cases hc : cont (s.drop (j + 1)) with
    | some m =>
      rw [hc] at h
      simp only [Option.some.injEq] at h
      exact ⟨j + 1, m, Nat.le_refl _, by omega, hc, h.symm⟩
    | none =>
      rw [hc] at h
      obtain ⟨k, m, hk, hlo, hcont, hr⟩ := ih r h
      exact ⟨k, m, Nat.le_succ_of_le hk, hlo, hcont, hr⟩

theorem greedy_complete (cont : List Char → Option (List Char)) (lo : Nat) (s : List Char) :
    ∀ (n k : Nat), lo ≤ k → k ≤ n → (cont (s.drop k)).isSome = true →
      (greedy cont lo s n).isSome = true := by
  intro n
  induction n with
  | zero =>
    intro k hlo hk hc
    have hk0 : k = 0 := by omega
    subst hk0
    have hlo0 : lo = 0 := by omega
    unfold greedy
    simpa [hlo0] using hc
  | succ j ih =>
    intro k hlo hk hc
    unfold greedy
    by_cases hkj : k = j + 1
    · subst hkj
      have : ¬ (j + 1 < lo) := by omega
      simp only [this, if_false]
      cases hd : cont (s.drop (j + 1)) with
      | some m => simp
      | none => rw [hd] at hc; simp at hc
    · have hk2 : k ≤ j := by omega
      have : ¬ (j + 1 < lo) := by omega
      simp only [this, if_false]
      cases hd : cont (s.drop (j + 1)) with
      | some m => simp
      | none => exact ih k hlo hk2 hc

theorem matchHere_sound :
    ∀ (atoms : List Atom) (s m : List Char), matchHere atoms s = some m →
      MatchesAtoms atoms m ∧ ∃ post, s = m ++ post := by
  intro atoms
  induction atoms with
  | nil =>
    intro s m h
    simp only [matchHere, Option.some.injEq] at h
    subst h
    exact ⟨rfl, s, rfl⟩
  | cons a rest ih =>
    intro s m h
    simp only [matchHere] at h
    obtain ⟨k, m1, hk, hlo, hcont, hr⟩ := greedy_sound _ _ _ _ _ h
    obtain ⟨hm1, post, hpost⟩ := ih _ _ hcont
    have hklen : k ≤ s.length := Nat.le_trans hk (runLength_le_length _ _ _)
    have hlen : (s.take k).length = k := by simp [hklen]
    refine ⟨⟨s.take k, m1, hr, by omega, ?_, runLength_take _ _ _ _ hk, hm1⟩, post, ?_⟩
    · rw [hlen]; exact Nat.le_trans hk (runLength_le_cap _ _ _)
    · rw [hr, List.append_assoc, ← hpost, List.take_append_drop]

theorem matchHere_complete :
    ∀ (atoms : List Atom) (m post : List Char), MatchesAtoms atoms m →
      (matchHere atoms (m ++ post)).isSome = true := by
  intro atoms
  induction atoms with
  | nil => intro m post _; simp [matchHere]
  | cons a rest ih =>
    intro m post h
    obtain ⟨seg, tl, hm, hlo, hhi, hcls, htl⟩ := h
    subst hm
    simp only [matchHere]
    refine greedy_complete _ _ _ _ seg.length hlo ?_ ?_
    · rw [List.append_assoc]
      exact le_runLength _ _ _ _ hcls hhi
    · rw [List.append_assoc, List.drop_left]
      exact ih tl post htl

/-! ### The match found at a position is the longest one there -/

theorem matchHere_cons (a : Atom) (rest : List Atom) (s : List Char) :
    matchHere (a :: rest) s
      = greedy (fun t => matchHere rest t) a.lo s (runLength a.cls a.hi s) := rfl

theorem matchHere_single (a : Atom) (s m : List Char) (h : matchHere [a] s = some m) :
    m = s.take (runLength a.cls a.hi s) := by
  simp only [matchHere] at h
  generalize runLength a.cls a.hi s = n at h
  cases n with
  | zero =>
    unfold greedy at h
    split_ifs at h
    simp only [Option.some.injEq] at h
    simp [← h]
  | succ j =>
    unfold greedy at h
    split_ifs at h
    simp only [Option.some.injEq] at h
    simp [← h]

theorem matchesAtoms_head (b : Atom) (rest : List Atom) (t : List Char)
    (h : MatchesAtoms (b :: rest) t) (hlo : 1 ≤ b.lo) :
    ∃ c u, t = c :: u ∧ b.cls c = true := by
  obtain ⟨seg, tl, ht, hl, -, hcls, -⟩ := h
  cases seg with
  | nil => simp at hl; omega
  | cons c cs => exact ⟨c, cs ++ tl, by simp [ht], hcls c (List.mem_cons_self _ _)⟩

theorem boundary_unique (p q : Char → Bool) (hdis : ∀ c, p c = true → q c = false)
    (x y u v : List Char) (c d : Char) (heq : x ++ c :: u = y ++ d :: v)
    (hx : ∀ e ∈ x, p e = true) (hy : ∀ e ∈ y, p e = true) (hc : q c = true) (hd : q d = true) :
    x = y ∧ c :: u = d :: v := by
  rcases List.append_eq_append_iff.mp heq with ⟨w, hw1, hw2⟩ | ⟨w, hw1, hw2⟩
  · cases w with
    | nil => exact ⟨by simpa using hw1.symm, by simpa using hw2⟩
    | cons e w2 =>
      simp only [List.cons_append, List.cons.injEq] at hw2
      have hcy : c ∈ y := by rw [hw1, hw2.1]; simp
      have := hdis c (hy c hcy)
      rw [hc] at this
      exact absurd this (by simp)
  · cases w with
    | nil => exact ⟨by simpa using hw1, by simpa using hw2.symm⟩
    | cons e w2 =>
      simp only [List.cons_append, List.cons.injEq] at hw2
      have hdx : d ∈ x := by rw [hw1, hw2.1]; simp
      have := hdis d (hx d hdx)
      rw [hd] at this
      exact absurd this (by simp)

theorem matchHere_longest :
    ∀ (atoms : List Atom), Separated atoms → ∀ (s m m2 post2 : List Char),
      matchHere atoms s = some m → MatchesAtoms atoms m2 → s = m2 ++ post2 →
      m2.length ≤ m.length := by
  intro atoms
  induction atoms with
  | nil =>
    intro _ s m m2 post2 _ h2 _
    simp only [MatchesAtoms] at h2
    simp [h2]
  | cons a rest ih =>
    intro hsep s m m2 post2 hm h2 hs
    cases rest with
    | nil =>
      obtain ⟨seg, tl, hm2, -, hhi, hcls, htl⟩ := h2
      simp only [MatchesAtoms] at htl
      subst htl
      rw [matchHere_single a s m hm]
      have h1 := le_runLength a.cls a.hi seg post2 hcls hhi
      have h3 := runLength_le_length a.cls a.hi s
      rw [hm2, List.append_nil] at hs ⊢
      rw [← hs] at h1
      simp only [List.length_take]
      omega
    | cons b rest2 =>
      obtain ⟨hblo, hdis, hsep2⟩ := hsep
      obtain ⟨seg, tl, hm2, -, -, hcls, htl⟩ := h2
      rw [matchHere_cons] at hm
      obtain ⟨k, m1, hk, -, hcont0, hr⟩ := greedy_sound _ _ _ _ _ hm
      have hcont : matchHere (b :: rest2) (s.drop k) = some m1 := hcont0
      obtain ⟨hm1, post, hpost⟩ := matchHere_sound _ _ _ hcont
      obtain ⟨c, u, hcu, hc⟩ := matchesAtoms_head b rest2 m1 hm1 hblo
      obtain ⟨d, v, hdv, hd⟩ := matchesAtoms_head b rest2 tl htl hblo
      have hsplit : s.take k ++ c :: (u ++ post) = seg ++ d :: (v ++ post2) := by
        have e1 : s.take k ++ c :: (u ++ post) = s := by
          have : c :: (u ++ post) = s.drop k := by rw [hpost, hcu]; rfl
          rw [this, List.take_append_drop]
        rw [e1, hs, hm2, hdv]
        simp
      obtain ⟨hseg, htail⟩ := boundary_unique a.cls b.cls hdis _ _ _ _ _ _ hsplit
        (runLength_take _ _ _ _ hk) hcls hc hd
      have hdrop : s.drop k = tl ++ post2 := by
        rw [hpost, hcu, hdv]
        simpa using htail
      have hlen := ih hsep2 (s.drop k) m1 tl post2 hcont htl hdrop
      rw [hr, hm2, hseg]
      simp only [List.length_append]
      omega

theorem separated_pattern : Separated pattern := by
  have hd : ∀ c : Char, isDigit09 c = true → (c == '.') = false := by
    intro c hc
    by_contra hne
    have hceq : c = '.' := by simpa using hne
    rw [hceq] at hc
    exact absurd hc (by decide)
  have hp : ∀ c : Char, (c == '.') = true → isDigit09 c = false := by
    intro c hc
    have hceq : c = '.' := by simpa using hc
    rw [hceq]
    decide
  exact ⟨Nat.le_refl _, hd, Nat.le_refl _, hp, Nat.le_refl _, hd, Nat.le_refl _, hp,
    Nat.le_refl _, hd, Nat.le_refl _, hp, trivial⟩

/-! ### Leftmost search -/

theorem searchFrom_sound :
    ∀ (h m : List Char), searchFrom pattern h = some m → FirstMatch h m := by
  intro h
  induction h with
  | nil =>
    intro m hm
    simp only [searchFrom] at hm
    obtain ⟨hmatch, post, hpost⟩ := matchHere_sound _ _ _ hm
    refine ⟨[], post, by simpa using hpost, hmatch, ?_⟩
    intro pre2 m2 post2 h2 hm2
    refine ⟨Nat.zero_le _, fun hlen => ?_⟩
    have hpre : pre2 = [] := List.eq_nil_of_length_eq_zero (by simpa using hlen)
    subst hpre
    exact matchHere_longest pattern separated_pattern [] m m2 post2 hm hm2 (by simpa using h2)
  | cons c cs ih =>
    intro m hm
    unfold searchFrom at hm
    cases hhere : matchHere pattern (c :: cs) with
    | some m1 =>
      rw [hhere] at hm
      simp only [Option.some.injEq] at hm
      subst hm
      obtain ⟨hmatch, post, hpost⟩ := matchHere_sound _ _ _ hhere
      refine ⟨[], post, by simpa using hpost, hmatch, ?_⟩
      intro pre2 m2 post2 h2 hm2
      refine ⟨Nat.zero_le _, fun hlen => ?_⟩
      have hpre : pre2 = [] := List.eq_nil_of_length_eq_zero (by simpa using hlen)
      subst hpre
      exact matchHere_longest pattern separated_pattern _ m1 m2 post2 hhere hm2
        (by simpa using h2)
    | none =>
      rw [hhere] at hm
      obtain ⟨pre, post, hcs, hmatch, hfirst⟩ := ih m hm
      refine ⟨c :: pre, post, by simp [hcs], hmatch, ?_⟩
      intro pre2 m2 post2 h2 hm2
      cases pre2 with
      | nil =>
        have hsome := matchHere_complete pattern m2 post2 hm2
        rw [List.nil_append] at h2
        rw [← h2, hhere] at hsome
        simp at hsome
      | cons d pre3 =>
        simp only [List.cons_append, List.cons.injEq] at h2
        obtain ⟨h5, h6⟩ := hfirst pre3 m2 post2 h2.2 hm2
        exact ⟨by simpa using h5, fun hlen => h6 (by simpa using hlen)⟩

theorem searchFrom_complete :
    ∀ (h : List Char), searchFrom pattern h = none → ¬ HasMatch h := by
  intro h
  induction h with
  | nil =>
    intro hnone
    rintro ⟨pre, m, post, heq, hm⟩
    simp only [searchFrom] at hnone
    have hpre : pre = [] := by
      cases pre with
      | nil => rfl
      | cons d r => simp at heq
    subst hpre
    have hsome := matchHere_complete pattern m post hm
    rw [List.nil_append] at heq
    rw [← heq, hnone] at hsome
    simp at hsome
  | cons c cs ih =>
    intro hnone
    unfold searchFrom at hnone
    cases hhere : matchHere pattern (c :: cs) with
    | some m1 => rw [hhere] at hnone; simp at hnone
    | none =>
      rw [hhere] at hnone
      rintro ⟨pre, m, post, heq, hm⟩
      cases pre with
      | nil =>
        have hsome := matchHere_complete pattern m post hm
        rw [List.nil_append] at heq
        rw [← heq, hhere] at hsome
        simp at hsome
      | cons d pre3 =>
        simp only [List.cons_append, List.cons.injEq] at heq
        exact ih hnone ⟨pre3, m, post, heq.2, hm⟩

/-! ### Shape of a match of the address pattern -/

theorem matchesAtoms_chars :
    ∀ (atoms : List Atom) (m : List Char), MatchesAtoms atoms m →
      ∀ c ∈ m, ∃ a ∈ atoms, a.cls c = true := by
  intro atoms
  induction atoms with
  | nil =>
    intro m h c hc
    simp only [MatchesAtoms] at h
    simp [h] at hc
  | cons a rest ih =>
    intro m h c hc
    obtain ⟨seg, tl, hm, -, -, hcls, htl⟩ := h
    rw [hm, List.mem_append] at hc
    rcases hc with hc | hc
    · exact ⟨a, List.mem_cons_self _ _, hcls c hc⟩
    · obtain ⟨b, hb, hbc⟩ := ih tl htl c hc
      exact ⟨b, List.mem_cons_of_mem _ hb, hbc⟩

theorem match_ne_nil (m : List Char) (h : MatchesAtoms pattern m) : m ≠ [] := by
  obtain ⟨c, u, hcu, -⟩ := matchesAtoms_head octetAtom _ m h (Nat.le_refl _)
  simp [hcu]

theorem match_no_semicolon (m : List Char) (h : MatchesAtoms pattern m) : ';' ∉ m := by
  intro hc
  obtain ⟨a, ha, hcls⟩ := matchesAtoms_chars pattern m h ';' hc
  simp only [pattern, List.mem_cons, List.mem_singleton, List.not_mem_nil, or_false] at ha
  rcases ha with rfl | rfl | rfl | rfl | rfl | rfl | rfl <;> exact absurd hcls (by decide)

theorem dot_segment (seg : List Char) (h1 : 1 ≤ seg.length) (h2 : seg.length ≤ 1)
    (hcls : ∀ c ∈ seg, dotAtom.cls c = true) : seg = ['.'] := by
  match seg, h1, h2, hcls with
  | [c], _, _, hcls =>
    have : (c == '.') = true := hcls c (List.mem_singleton_self c)
    simp only [beq_iff_eq] at this
    rw [this]
  | [], h1, _, _ => simp at h1
  | _ :: _ :: _, _, h2, _ => simp at h2

theorem octet_segment (seg : List Char) (h1 : octetAtom.lo ≤ seg.length)
    (h2 : seg.length ≤ octetAtom.hi) (hcls : ∀ c ∈ seg, octetAtom.cls c = true) :
    isOctetText seg = true := by
  have h1b : 1 ≤ seg.length := h1
  have h2b : seg.length ≤ 3 := h2
  have h3 : ∀ c ∈ seg, isDigit09 c = true := hcls
  simp only [isOctetText, Bool.and_eq_true, decide_eq_true_eq, List.all_eq_true]
  exact ⟨⟨h1b, h2b⟩, h3⟩

theorem match_form (m : List Char) (h : MatchesAtoms pattern m) :
    ∃ a b c d, m = a ++ '.' :: (b ++ '.' :: (c ++ '.' :: d)) ∧ isOctetText a = true ∧
      isOctetText b = true ∧ isOctetText c = true ∧ isOctetText d = true := by
  obtain ⟨a, t1, e1, la, ha, ca, x1, t2, e2, lx1, hx1, cx1, b, t3, e3, lb, hb, cb,
    x2, t4, e4, lx2, hx2, cx2, c, t5, e5, lc, hc, cc, x3, t6, e6, lx3, hx3, cx3,
    d, t7, e7, ld, hd, cd, e8⟩ := h
  simp only [MatchesAtoms] at e8
  have y1 := dot_segment x1 lx1 hx1 cx1
  have y2 := dot_segment x2 lx2 hx2 cx2
  have y3 := dot_segment x3 lx3 hx3 cx3
  refine ⟨a, b, c, d, ?_, octet_segment a la ha ca, octet_segment b lb hb cb,
    octet_segment c lc hc cc, octet_segment d ld hd cd⟩
  rw [e1, e2, e3, e4, e5, e6, e7, e8, y1, y2, y3]
  simp

theorem octetText_no_dot (o : List Char) (h : isOctetText o = true) : '.' ∉ o := by
  intro hmem
  simp only [isOctetText, Bool.and_eq_true, List.all_eq_true] at h
  exact absurd (h.2 '.' hmem) (by decide)

theorem octetValue_aux :
    ∀ (o : List Char) (n : Nat), (∀ c ∈ o, isDigit09 c = true) →
      o.foldl (fun n c => 10 * n + (c.toNat - 48)) n + 1 ≤ (n + 1) * 10 ^ o.length := by
  intro o
  induction o with
  | nil => intro n _; simp
  | cons c cs ih =>
    intro n h
    have hc : isDigit09 c = true := h c (List.mem_cons_self _ _)
    have hcs : ∀ d ∈ cs, isDigit09 d = true := fun d hd => h d (List.mem_cons_of_mem _ hd)
    simp only [isDigit09, Bool.and_eq_true, decide_eq_true_eq] at hc
    have h9 : c.toNat - 48 ≤ 9 := by omega
    have step := ih (10 * n + (c.toNat - 48)) hcs
    simp only [List.foldl_cons, List.length_cons]
    calc List.foldl (fun n c => 10 * n + (c.toNat - 48)) (10 * n + (c.toNat - 48)) cs + 1
        ≤ (10 * n + (c.toNat - 48) + 1) * 10 ^ cs.length := step
      _ ≤ (10 * (n + 1)) * 10 ^ cs.length := Nat.mul_le_mul_right _ (by omega)
      _ = (n + 1) * 10 ^ (cs.length + 1) := by ring

theorem octetValue_le (o : List Char) (h : isOctetText o = true) : octetValue o ≤ 999 := by
  simp only [isOctetText, Bool.and_eq_true, List.all_eq_true, decide_eq_true_eq] at h
  have h1 := octetValue_aux o 0 h.2
  have h2 : 10 ^ o.length ≤ 10 ^ 3 := Nat.pow_le_pow_right (by norm_num) h.1.2
  simp only [octetValue]
  omega

theorem match_splitOn (m : List Char) (h : MatchesAtoms pattern m) :
    ∃ a b c d, m.splitOn '.' = [a, b, c, d] ∧ isOctetText a = true ∧
      isOctetText b = true ∧ isOctetText c = true ∧ isOctetText d = true := by
  obtain ⟨a, b, c, d, hm, ha, hb, hc, hd⟩ := match_form m h
  refine ⟨a, b, c, d, ?_, ha, hb, hc, hd⟩
  have hsplit := List.splitOn_intercalate [a, b, c, d] '.' (by
    intro l hl
    simp only [List.mem_cons, List.mem_singleton, List.not_mem_nil, or_false] at hl
    rcases hl with rfl | rfl | rfl | rfl
    · exact octetText_no_dot _ ha
    · exact octetText_no_dot _ hb
    · exact octetText_no_dot _ hc
    · exact octetText_no_dot _ hd) (by simp)
  rw [← hsplit, hm]
  simp [List.intercalate, List.intersperse]

/-! ### The host list as a join -/

theorem intercalate_cons (m : List Char) (ms : List (List Char)) :
    [';'].intercalate (m :: ms) = if ms = [] then m else m ++ ';' :: [';'].intercalate ms := by
  cases ms with
  | nil => simp [List.intercalate]
  | cons m2 rest => simp [List.intercalate, List.intersperse]

theorem hostLoop_eq :
    ∀ (lines : List (List Char)) (acc : List Char),
      hostLoop lines acc =
        if acc = [] then [';'].intercalate (lines.filterMap (searchFrom pattern))
        else if lines.filterMap (searchFrom pattern) = [] then acc
        else acc ++ ';' :: [';'].intercalate (lines.filterMap (searchFrom pattern)) := by
  intro lines
  induction lines with
  | nil =>
    intro acc
    by_cases hacc : acc = [] <;> simp [hostLoop, List.intercalate, hacc]
  | cons h rest ih =>
    intro acc
    cases hs : searchFrom pattern h with
    | none =>
      rw [List.filterMap_cons_none hs]
      simp only [hostLoop, regex_search, hs, Option.map_none']
      exact ih acc
    | some m =>
      have hne : m ≠ [] := by
        obtain ⟨pre, post, -, hmatch, -⟩ := searchFrom_sound h m hs
        exact match_ne_nil m hmatch
      rw [List.filterMap_cons_some hs]
      simp only [hostLoop, regex_search, hs, Option.map_some', List.length_singleton,
        gt_iff_lt, if_true, Nat.sub_self, Nat.zero_lt_one]
      rw [ih, intercalate_cons]
      by_cases hacc : acc = []
      · subst hacc
        simp [List.getD, hne]
      · simp [List.getD, hacc, hne]
        split_ifs <;> simp

theorem buildBrchost_eq (split : List Char → Char → List (List Char))
    (hosts whosts : List Char) :
    buildBrchost split hosts whosts =
      [';'].intercalate
        ((split hosts '\n' ++ split whosts '\n').filterMap (searchFrom pattern)) := by
  simp [buildBrchost, hostLoop_eq]

theorem picks_filterMap :
    ∀ lines : List (List Char), Picks lines (lines.filterMap (searchFrom pattern)) := by
  intro lines
  induction lines with
  | nil => exact Picks.nil
  | cons h rest ih =>
    cases hs : searchFrom pattern h with
    | none =>
      rw [List.filterMap_cons_none hs]
      exact Picks.skip (searchFrom_complete h hs) ih
    | some m =>
      rw [List.filterMap_cons_some hs]
      exact Picks.take (searchFrom_sound h m hs) ih

theorem picks_matches (lines ms : List (List Char)) (h : Picks lines ms) :
    ∀ m ∈ ms, MatchesAtoms pattern m := by
  induction h with
  | nil => intro m hm; simp at hm
  | skip _ _ ih => exact ih
  | take hfirst _ ih =>
    intro m hm
    rcases List.mem_cons.mp hm with rfl | hm
    · obtain ⟨pre, post, -, hmatch, -⟩ := hfirst
      exact hmatch
    · exact ih m hm

theorem picks_none (lines ms : List (List Char)) (h : Picks lines ms)
    (hno : ∀ l ∈ lines, ¬ HasMatch l) : ms = [] := by
  induction h with
  | nil => rfl
  | skip _ _ ih => exact ih (fun l hl => hno l (List.mem_cons_of_mem _ hl))
  | @take l m hs ms2 hfirst _ _ =>
    obtain ⟨pre, post, hl, hmatch, -⟩ := hfirst
    exact absurd ⟨pre, m, post, hl, hmatch⟩ (hno l (List.mem_cons_self _ _))

/-! ### Separators in a join of clean pieces -/

theorem chain_of_no_semicolon :
    ∀ m : List Char, ';' ∉ m → List.Chain' (fun a b : Char => ¬ (a = ';' ∧ b = ';')) m := by
  intro m
  induction m with
  | nil => intro _; exact List.chain'_nil
  | cons c u ih =>
    intro h
    refine List.chain'_cons'.mpr ⟨?_, ih (fun hu => h (List.mem_cons_of_mem _ hu))⟩
    rintro y - ⟨hc, -⟩
    exact h (hc ▸ List.mem_cons_self _ _)

theorem join_ne_nil (m : List Char) (ms : List (List Char)) (hm : m ≠ []) :
    [';'].intercalate (m :: ms) ≠ [] := by
  rw [intercalate_cons]
  split_ifs
  · exact hm
  · simp

theorem join_clean :
    ∀ ms : List (List Char), (∀ m ∈ ms, m ≠ [] ∧ ';' ∉ m) →
      ([';'].intercalate ms).head? ≠ some ';' ∧
      ([';'].intercalate ms).getLast? ≠ some ';' ∧
      List.Chain' (fun a b : Char => ¬ (a = ';' ∧ b = ';')) ([';'].intercalate ms) := by
  intro ms
  induction ms with
  | nil => intro _; simp [List.intercalate]
  | cons m rest ih =>
    intro h
    obtain ⟨hne, hsemi⟩ := h m (List.mem_cons_self _ _)
    have hrest : ∀ x ∈ rest, x ≠ [] ∧ ';' ∉ x := fun x hx => h x (List.mem_cons_of_mem _ hx)
    obtain ⟨ih1, ih2, ih3⟩ := ih hrest
    have hhead : m.head? ≠ some ';' := fun hh => hsemi (List.mem_of_mem_head? hh)
    have hlast : m.getLast? ≠ some ';' := fun hh => hsemi (List.mem_of_getLast?_eq_some hh)
    rw [intercalate_cons]
    split_ifs with hr
    · exact ⟨hhead, hlast, chain_of_no_semicolon m hsemi⟩
    · refine ⟨?_, ?_, ?_⟩
      · cases m with
        | nil => exact absurd rfl hne
        | cons c u => simpa using hhead
      · cases rest with
        | nil => exact absurd rfl hr
        | cons r rs =>
          have hj := join_ne_nil r rs (hrest r (List.mem_cons_self _ _)).1
          cases hjr : [';'].intercalate (r :: rs) with
          | nil => exact absurd hjr hj
          | cons x xs =>
            rw [hjr] at ih2
            simpa [List.getLast?_append, List.getLast?_cons_cons] using ih2
      · refine List.chain'_append.mpr ⟨chain_of_no_semicolon m hsemi, ?_, ?_⟩
        · refine List.chain'_cons'.mpr ⟨?_, ih3⟩
          rintro y hy ⟨-, hy2⟩
          rw [hy2] at hy
          exact ih1 hy
        · rintro x hx y - ⟨hx2, -⟩
          rw [hx2] at hx
          exact hlast hx

theorem no_double_semicolon (l : List Char)
    (h : List.Chain' (fun a b : Char => ¬ (a = ';' ∧ b = ';')) l) : ¬ [';', ';'] <:+: l := by
  intro hinf
  have := h.infix hinf
  rw [List.chain'_pair] at this
  exact this ⟨rfl, rfl⟩

theorem hostEntries_join (ms : List (List Char)) (h : ∀ m ∈ ms, m ≠ [] ∧ ';' ∉ m) :
    hostEntries ([';'].intercalate ms) = ms := by
  cases ms with
  | nil => simp [hostEntries, List.intercalate]
  | cons m rest =>
    have hne := join_ne_nil m rest (h m (List.mem_cons_self _ _)).1
    simp only [hostEntries, hne, if_false]
    exact List.splitOn_intercalate _ ';' (fun l hl => (h l hl).2) (by simp)

theorem picks_clean (lines ms : List (List Char)) (h : Picks lines ms) :
    ∀ m ∈ ms, m ≠ [] ∧ ';' ∉ m := fun m hm =>
  ⟨match_ne_nil m (picks_matches lines ms h m hm),
    match_no_semicolon m (picks_matches lines ms h m hm)⟩

/-! ### The broadcast host list -/

/-- C1: for every output of the two interface queries (and every behaviour of the line
splitter), the host list passed to `startBroadcast` is the join with single semicolons of the
first matches of the address pattern in the lines that have one, taken in order (eth0 lines
first, then wlan0 lines). Hence it is empty when no line matches, neither begins nor ends with
a semicolon, contains no two adjacent semicolons, and its entries are exactly those matches,
one per matching line. -/
theorem brchost_joins_first_matches (split : List Char → Char → List (List Char))
    (hosts whosts : List Char) :
    ∃ ms : List (List Char),
      Picks (split hosts '\n' ++ split whosts '\n') ms ∧
      buildBrchost split hosts whosts = [';'].intercalate ms ∧
      ((∀ l ∈ split hosts '\n' ++ split whosts '\n', ¬ HasMatch l) →
        buildBrchost split hosts whosts = []) ∧
      (buildBrchost split hosts whosts).head? ≠ some ';' ∧
      (buildBrchost split hosts whosts).getLast? ≠ some ';' ∧
      ¬ [';', ';'] <:+: buildBrchost split hosts whosts ∧
      hostEntries (buildBrchost split hosts whosts) = ms := by
  have hp := picks_filterMap (split hosts '\n' ++ split whosts '\n')
  have hc := picks_clean _ _ hp
  have hj := join_clean _ hc
  refine ⟨_, hp, buildBrchost_eq split hosts whosts, ?_, ?_, ?_, ?_, ?_⟩
  · intro hno
    rw [buildBrchost_eq, picks_none _ _ hp hno]
    rfl
  · rw [buildBrchost_eq]; exact hj.1
  · rw [buildBrchost_eq]; exact hj.2.1
  · rw [buildBrchost_eq]; exact no_double_semicolon _ hj.2.2
  · rw [buildBrchost_eq]; exact hostEntries_join _ hc

/-- C1, exercised: the loopback interface has no IPv4 line, and the host list is empty. -/
theorem brchost_joins_first_matches_witness :
    (∀ l ∈ splitOnChar "1: lo: <LOOPBACK>\n    inet6 ::1/128\n".toList '\n'
        ++ splitOnChar [] '\n', ¬ HasMatch l) ∧
    buildBrchost splitOnChar "1: lo: <LOOPBACK>\n    inet6 ::1/128\n".toList [] = [] := by
  have hno : ∀ l ∈ splitOnChar "1: lo: <LOOPBACK>\n    inet6 ::1/128\n".toList '\n'
      ++ splitOnChar [] '\n', ¬ HasMatch l := by
    intro l hl
    have hall : ∀ x ∈ splitOnChar "1: lo: <LOOPBACK>\n    inet6 ::1/128\n".toList '\n'
        ++ splitOnChar [] '\n', searchFrom pattern x = none := by decide
    exact searchFrom_complete l (hall l hl)
  obtain ⟨ms, -, -, hempty, -⟩ := brchost_joins_first_matches splitOnChar
    "1: lo: <LOOPBACK>\n    inet6 ::1/128\n".toList []
  exact ⟨hno, hempty hno⟩

/-- A run of lines 176-191 on typical `ip addr show` output. -/
theorem buildBrchost_example :
    buildBrchost splitOnChar
      "2: eth0: <UP>\n    inet 192.168.1.5/24 brd 192.168.1.255 scope global eth0\n".toList
      "3: wlan0: <UP>\n    inet 10.0.0.7/8 scope global wlan0\n".toList
      = "192.168.1.5;10.0.0.7".toList := by
  decide

/-- C9 as stated fails: a line carrying the text `999.999.999.999` yields that text as an
entry of the host list, and 999 is not an octet. -/
theorem brchost_entry_counterexample :
    hostEntries (buildBrchost splitOnChar
      "    inet 999.999.999.999/24 scope global eth0\n".toList [])
      = ["999.999.999.999".toList] ∧
    isIPv4 "999.999.999.999".toList = false := by
  decide

/-- C9, amended: for every output of the interface queries, every entry of the host list
consists of four dot-separated groups of one to three decimal digits, so that each group has
a value in the range 0..999. -/
theorem brchost_entries_dotted_quads (split : List Char → Char → List (List Char))
    (hosts whosts : List Char) :
    ∀ e ∈ hostEntries (buildBrchost split hosts whosts),
      isDottedQuad e = true ∧ ∀ o ∈ e.splitOn '.', octetValue o ≤ 999 := by
  intro e he
  have hp := picks_filterMap (split hosts '\n' ++ split whosts '\n')
  rw [buildBrchost_eq, hostEntries_join _ (picks_clean _ _ hp)] at he
  obtain ⟨a, b, c, d, hsplit, ha, hb, hc, hd⟩ := match_splitOn e (picks_matches _ _ hp e he)
  refine ⟨by simp [isDottedQuad, hsplit, ha, hb, hc, hd], ?_⟩
  intro o ho
  rw [hsplit] at ho
  simp only [List.mem_cons, List.mem_singleton, List.not_mem_nil, or_false] at ho
  rcases ho with rfl | rfl | rfl | rfl
  · exact octetValue_le _ ha
  · exact octetValue_le _ hb
  · exact octetValue_le _ hc
  · exact octetValue_le _ hd

/-- C9 amended, exercised on the address of the quiet environment. -/
theorem brchost_entries_dotted_quads_witness :
    "192.168.1.5".toList ∈ hostEntries (buildBrchost splitOnChar
      "2: eth0: <UP>\n    inet 192.168.1.5/24 brd 192.168.1.255\n".toList []) ∧
    isDottedQuad "192.168.1.5".toList = true ∧
    ∀ o ∈ "192.168.1.5".toList.splitOn '.', octetValue o ≤ 999 :=
  ⟨by decide, brchost_entries_dotted_quads splitOnChar
    "2: eth0: <UP>\n    inet 192.168.1.5/24 brd 192.168.1.255\n".toList [] _ (by decide)⟩

/-! ### Rounding -/

theorem roundSig_of_lt (p n : Nat) (h : n < 2 ^ p) : roundSig p n = n := by
  simp [roundSig, h]

theorem dropCount_lower (p : Nat) :
    ∀ (fuel n : Nat), 0 < dropCount p fuel n → 2 ^ p * 2 ^ (dropCount p fuel n - 1) ≤ n := by
  intro fuel
  induction fuel with
  | zero => intro n h; simp [dropCount] at h
  | succ f ih =>
    intro n h
    unfold dropCount at h ⊢
    split_ifs at h ⊢ with hlt
    · simp at h
    · simp only [Nat.add_sub_cancel]
      by_cases hj : 0 < dropCount p f (n / 2)
      · have h1 := ih (n / 2) hj
        have h2 : 2 ^ dropCount p f (n / 2) = 2 * 2 ^ (dropCount p f (n / 2) - 1) := by
          rw [← Nat.pow_succ']
          congr 1
          omega
        rw [h2]
        have h3 : 2 * (n / 2) ≤ n := Nat.mul_div_le n 2
        calc 2 ^ p * (2 * 2 ^ (dropCount p f (n / 2) - 1))
            = 2 * (2 ^ p * 2 ^ (dropCount p f (n / 2) - 1)) := by ring
          _ ≤ 2 * (n / 2) := Nat.mul_le_mul_left 2 h1
          _ ≤ n := h3
      · have h0 : dropCount p f (n / 2) = 0 := by omega
        rw [h0]
        simp only [Nat.pow_zero, Nat.mul_one]
        omega

theorem dropCount_pos (p n : Nat) (h : ¬ n < 2 ^ p) : 0 < dropCount p n n := by
  have hn : 0 < n := by
    have : 0 < 2 ^ p := Nat.pow_pos (by norm_num)
    omega
  obtain ⟨m, rfl⟩ : ∃ m, n = m + 1 := ⟨n - 1, by omega⟩
  unfold dropCount
  simp [h]

theorem roundSig_pos (p n : Nat) (hp : 1 ≤ p) (hn : 0 < n) : 0 < roundSig p n := by
  unfold roundSig
  split_ifs with h1
  · exact hn
  all_goals
    have hk := dropCount_pos p n h1
    have hlow := dropCount_lower p n n hk
    have hpow : 2 ^ dropCount p n n ≤ 2 ^ p * 2 ^ (dropCount p n n - 1) := by
      have e : 2 ^ dropCount p n n = 2 * 2 ^ (dropCount p n n - 1) := by
        rw [← Nat.pow_succ']
        congr 1
        omega
      have h2p : 2 ≤ 2 ^ p := by
        calc 2 = 2 ^ 1 := by norm_num
          _ ≤ 2 ^ p := Nat.pow_le_pow_right (by norm_num) hp
      rw [e]
      exact Nat.mul_le_mul_right _ h2p
    have hq : 0 < n / 2 ^ dropCount p n n :=
      Nat.div_pos (Nat.le_trans hpow hlow) (Nat.pow_pos (by norm_num))
    have hx : 0 < 2 ^ dropCount p n n := Nat.pow_pos (by norm_num)
    positivity

theorem roundSig_le_bound (p n B K : Nat) (hn : n ≤ B) (hB : B < 2 ^ (p + K))
    (hdiv : 2 ^ K ∣ B) : roundSig p n ≤ B := by
  unfold roundSig
  by_cases h1 : n < 2 ^ p
  · simp [h1, hn]
  · simp only [h1, if_false]
    have hk := dropCount_pos p n h1
    have hlow := dropCount_lower p n n hk
    generalize dropCount p n n = k at hk hlow
    have hkK : k ≤ K := by
      have hlt : 2 ^ (p + (k - 1)) < 2 ^ (p + K) := by
        rw [Nat.pow_add]
        exact Nat.lt_of_le_of_lt (Nat.le_trans hlow hn) hB
      have := (Nat.pow_lt_pow_iff_right (by norm_num : 1 < 2)).mp hlt
      omega
    have hdk : 2 ^ k ∣ B := Nat.dvd_trans (Nat.pow_dvd_pow 2 hkK) hdiv
    obtain ⟨c, hc⟩ := hdk
    have hx : 0 < 2 ^ k := Nat.pow_pos (by norm_num)
    have hqn : n / 2 ^ k * 2 ^ k ≤ n := Nat.div_mul_le_self n (2 ^ k)
    have hhalf : 0 < 2 ^ (k - 1) := Nat.pow_pos (by norm_num)
    split_ifs with h2 h3
    · exact Nat.le_trans hqn hn
    · exact Nat.le_trans hqn hn
    · have hr : 0 < n % 2 ^ k := by omega
      have hdm := Nat.div_add_mod n (2 ^ k)
      have hlt : 2 ^ k * (n / 2 ^ k) < 2 ^ k * c := by
        rw [← hc]
        omega
      have hqc : n / 2 ^ k < c := Nat.lt_of_mul_lt_mul_left hlt
      rw [hc, Nat.mul_comm (2 ^ k) c]
      exact Nat.mul_le_mul_right _ hqc

/-! ### The calibration gain -/

theorem calib_sig (g : Nat) (hg : 0 < g) (h32 : g < 2 ^ 32) :
    calibFullScaleToVoltage g = { sig := roundSig 24 (roundSig 24 g * 100), exp := -32 } := by
  have hm : roundSig 24 g ≤ 2 ^ 32 :=
    roundSig_le_bound 24 g (2 ^ 32) 9 (Nat.le_of_lt h32) (by norm_num) (by norm_num)
  have h1 : roundSig 53 (roundSig 24 g) = roundSig 24 g :=
    roundSig_of_lt _ _ (by omega)
  have h2 : roundSig 53 100 = 100 := by decide
  have h3 : roundSig 53 (roundSig 24 g * 100) = roundSig 24 g * 100 :=
    roundSig_of_lt _ _ (by omega)
  have hg0 : g ≠ 0 := by omega
  simp [calibFullScaleToVoltage, hg0, toFloat, toDouble, Bin.round, Bin.mul, Bin.ofNat,
    Bin.divPow2, h1, h2, h3]

/-- C10 as stated fails: for the gain `0xFFFFFFFF` the conversion to `float` rounds the gain up
to `2 ^ 32`, and the result is exactly 100, which is neither below 100 nor equal to
`0xFFFFFFFF * 100 / 2 ^ 32`. -/
theorem calibFullScaleToVoltage_counterexample :
    (calibFullScaleToVoltage 0xFFFFFFFF).toRat = 100 ∧
    ¬ (calibFullScaleToVoltage 0xFFFFFFFF).toRat < 100 ∧
    (calibFullScaleToVoltage 0xFFFFFFFF).toRat ≠ (0xFFFFFFFF : ℚ) * 100 / 2 ^ 32 := by
  have h : calibFullScaleToVoltage 0xFFFFFFFF = { sig := 429496729600, exp := -32 } := by
    decide
  rw [h]
  norm_num [Bin.toRat]

/-- C10, amended: `calibFullScaleToVoltage(0)` is exactly 1; for every non-zero 32-bit gain
the result is `(float)gain * 100 / 2 ^ 32` rounded to single precision, where `(float)gain` is
the gain rounded to single precision; it is strictly greater than 0 and at most 100; and for
gains below `2 ^ 17` it is exactly `gain * 100 / 2 ^ 32`, which is below 100. -/
theorem calibFullScaleToVoltage_rounded :
    (calibFullScaleToVoltage 0).toRat = 1 ∧
    ∀ g : Nat, 0 < g → g < 2 ^ 32 →
      (calibFullScaleToVoltage g).toRat
        = (roundSig 24 (roundSig 24 g * 100) : ℚ) / 2 ^ 32 ∧
      0 < (calibFullScaleToVoltage g).toRat ∧
      (calibFullScaleToVoltage g).toRat ≤ 100 ∧
      (g < 2 ^ 17 → (calibFullScaleToVoltage g).toRat = (g : ℚ) * 100 / 2 ^ 32 ∧
        (calibFullScaleToVoltage g).toRat < 100) := by
  constructor
  · have h : calibFullScaleToVoltage 0 = { sig := 1, exp := 0 } := by decide
    rw [h]
    norm_num [Bin.toRat]
  · intro g hg h32
    have hval : (calibFullScaleToVoltage g).toRat
        = (roundSig 24 (roundSig 24 g * 100) : ℚ) / 2 ^ 32 := by
      rw [calib_sig g hg h32]
      simp only [Bin.toRat]
      rw [zpow_neg, ← div_eq_mul_inv]
      norm_cast
    have hm : roundSig 24 g ≤ 2 ^ 32 :=
      roundSig_le_bound 24 g (2 ^ 32) 9 (Nat.le_of_lt h32) (by norm_num) (by norm_num)
    have hmpos : 0 < roundSig 24 g := roundSig_pos 24 g (by norm_num) hg
    have hup : roundSig 24 (roundSig 24 g * 100) ≤ 100 * 2 ^ 32 :=
      roundSig_le_bound 24 _ (100 * 2 ^ 32) 15 (by omega) (by norm_num) (by norm_num)
    have hpos : 0 < roundSig 24 (roundSig 24 g * 100) :=
      roundSig_pos 24 _ (by norm_num) (by omega)
    refine ⟨hval, ?_, ?_, ?_⟩
    · rw [hval]
      have : (0 : ℚ) < (roundSig 24 (roundSig 24 g * 100) : ℚ) := by exact_mod_cast hpos
      positivity
    · rw [hval, div_le_iff₀ (by norm_num)]
      exact_mod_cast hup
    · intro h17
      have e1 : roundSig 24 g = g := roundSig_of_lt _ _ (by omega)
      have e2 : roundSig 24 (g * 100) = g * 100 := roundSig_of_lt _ _ (by omega)
      have hexact : (calibFullScaleToVoltage g).toRat = (g : ℚ) * 100 / 2 ^ 32 := by
        rw [hval, e1, e2]
        norm_cast
      refine ⟨hexact, ?_⟩
      rw [hexact, div_lt_iff₀ (by norm_num)]
      have : g * 100 < 100 * 2 ^ 32 := by omega
      exact_mod_cast this

/-- C10 amended, exercised at the gain `0x8000`, for which the result is exact. -/
theorem calibFullScaleToVoltage_rounded_witness :
    (0 : Nat) < 0x8000 ∧ 0x8000 < 2 ^ 32 ∧ 0x8000 < 2 ^ 17 ∧
    (calibFullScaleToVoltage 0x8000).toRat = (0x8000 : Nat) * 100 / 2 ^ 32 ∧
    (calibFullScaleToVoltage 0x8000).toRat < 100 :=
  ⟨by norm_num, by norm_num, by norm_num,
    (calibFullScaleToVoltage_rounded.2 0x8000 (by norm_num) (by norm_num)).2.2.2
      (by norm_num)⟩

/-! ### The end of `main` -/

@[simp]
theorem conStops_append (t u : List Effect) : conStops (t ++ u) = conStops t ++ conStops u := by
  simp [conStops]

@[simp]
theorem conStops_empty : conStops [] = [] := rfl

@[simp]
theorem conStops_cons (e : Effect) (t : List Effect) :
    conStops (e :: t) = if e = .conStop then e :: conStops t else conStops t := by
  simp only [conStops, List.filter_cons, beq_iff_eq]

theorem setupCatch_conStops (e : Thrown) (s : State) :
    conStops (setupCatch e s).state.trace = conStops s.trace := by
  cases e <;> simp [setupCatch]

theorem addHandlerThen_conStops (env : Env) (event : Events) (l : Lambda) (s : State)
    (rest : State → Flow) (hrest : ∀ t, conStops (rest t).state.trace = conStops t.trace) :
    conStops (addHandlerThen env event l s rest).state.trace = conStops s.trace := by
  unfold addHandlerThen
  cases env.conAddHandler event with
  | returns => simp [hrest]
  | throws e => simp [setupCatch_conStops]

theorem mainSetup_conStops (env : Env) (build : Build) (opt : ClientOpt) (s : State) :
    conStops (mainSetup env build opt s).state.trace = conStops s.trace := by
  unfold mainSetup
  cases env.exec_eth0 with
  | error w => simp [setupCatch_conStops]
  | ok hosts =>
    cases env.exec_wlan0 with
    | error w => simp [setupCatch_conStops]
    | ok whosts =>
      cases env.conCreate with
      | error e => simp [setupCatch_conStops]
      | ok p =>
        cases env.conStartBroadcast with
        | throws e => simp [setupCatch_conStops]
        | returns =>
          simp only
          rw [addHandlerThen_conStops]
          · simp
          · intro t
            rw [addHandlerThen_conStops]
            intro t2
            rw [addHandlerThen_conStops]
            intro t3
            simp

theorem mainProlog_conStops (build : Build) (s : State) :
    conStops (mainProlog build s).trace = conStops s.trace := by
  unfold mainProlog
  split <;> simp

theorem mainDaemonize_conStops (env : Env) (opt : ClientOpt) (s : State) :
    conStops (mainDaemonize env opt s).state.trace = conStops s.trace := by
  unfold mainDaemonize
  split_ifs <;> simp

theorem mainStart_conStops (env : Env) (build : Build) (s : State) :
    conStops (mainStart env build s).state.trace = conStops s.trace := by
  simp only [mainStart, installTermSignalHandler, handleCloseChildEvents]
  cases env.makeEmptyDir with
  | returns => simp
  | throws e => cases e <;> simp

theorem mainBeforeLoop_conStops (env : Env) (build : Build) (opt : ClientOpt) :
    conStops (mainBeforeLoop env build opt).state.trace = [] := by
  have h0 : conStops (mainProlog build State.init).trace = [] := by
    rw [mainProlog_conStops]; rfl
  have h1 := mainDaemonize_conStops env opt (mainProlog build State.init)
  rw [h0] at h1
  unfold mainBeforeLoop
  cases hd : mainDaemonize env opt (mainProlog build State.init) with
  | exited c s1 => rw [hd] at h1; exact h1
  | uncaught e s1 => rw [hd] at h1; exact h1
  | next s1 =>
    rw [hd] at h1
    simp only [state_next] at h1
    have h2 := mainSetup_conStops env build opt s1
    rw [h1] at h2
    simp only
    cases hs : mainSetup env build opt s1 with
    | exited c s2 => rw [hs] at h2; exact h2
    | uncaught e s2 => rw [hs] at h2; exact h2
    | next s2 =>
      rw [hs] at h2
      simp only [state_next] at h2
      simp only
      rw [mainStart_conStops, h2]

theorem waitLoop_conStops (sched : List (Option Int)) :
    ∀ s s' : State, waitLoop sched s = some s' → conStops s'.trace = conStops s.trace := by
  induction sched with
  | nil =>
    intro s s' h
    unfold waitLoop at h
    split_ifs at h
    simp only [Option.some.injEq] at h
    rw [← h]
  | cons ev rest ih =>
    intro s s' h
    unfold waitLoop at h
    split_ifs at h
    · cases ev with
      | none => exact ih _ _ h
      | some n =>
        rw [ih _ _ h]
        simp [termSignalHandler]
    · simp only [Option.some.injEq] at h
      rw [← h]

theorem waitLoop_exit (sched : List (Option Int)) :
    ∀ s s' : State, waitLoop sched s = some s' → s'.g_run = false := by
  induction sched with
  | nil =>
    intro s s' h
    unfold waitLoop at h
    split_ifs at h with hg
    simp only [Option.some.injEq] at h
    rw [← h]
    simpa using hg
  | cons ev rest ih =>
    intro s s' h
    unfold waitLoop at h
    split_ifs at h with hg
    · cases ev with
      | none => exact ih _ _ h
      | some n => exact ih _ _ h
    · simp only [Option.some.injEq] at h
      rw [← h]
      simpa using hg

theorem main_eq (env : Env) (build : Build) (opt : ClientOpt) (sched : List (Option Int)) :
    main env build opt sched =
      match mainBeforeLoop env build opt with
      | .next s3 => (waitLoop sched s3).map (mainShutdown env)
      | f => some f := by
  unfold main mainBeforeLoop
  cases mainDaemonize env opt (mainProlog build State.init) with
  | exited c s1 => rfl
  | uncaught e s1 => rfl
  | next s1 =>
    simp only
    cases mainSetup env build opt s1 with
    | exited c s2 => rfl
    | uncaught e s2 => rfl
    | next s2 =>
      simp only
      cases mainStart env build s2 with
      | exited c s3 => rfl
      | uncaught e s3 => rfl
      | next s3 =>
        simp only
        cases waitLoop sched s3 <;> rfl

theorem mainEpilogue_conStops (env : Env) (s : State) :
    conStops (mainEpilogue env s).state.trace = conStops s.trace ++ [.conStop] := by
  unfold mainEpilogue
  cases env.conStop with
  | returns => simp
  | throws e => simp

theorem mainEpilogue_returns (env : Env) (s : State) (h : env.conStop = .returns) :
    ∃ sf, mainEpilogue env s = .exited EXIT_SUCCESS sf := by
  unfold mainEpilogue
  rw [h]
  exact ⟨_, rfl⟩

theorem mainEpilogue_throws (env : Env) (s : State) (e : Thrown)
    (h : env.conStop = .throws e) : ∃ sf, mainEpilogue env s = .uncaught e sf := by
  unfold mainEpilogue
  rw [h]
  exact ⟨_, rfl⟩

/-- C18 as stated fails: in a run in which SIGTERM ends the wait loop and
`con_server->stop()` throws, the loop is left with `g_run` false and `stop()` is called
exactly once behind it, but `main` does not return `EXIT_SUCCESS`: line 465 is outside every
`try` block and the exception leaves `main`. -/
theorem main_return_counterexample :
    ∃ s3 s4 sf,
      mainBeforeLoop Env.conStopThrows Build.z10Slave ClientOpt.foreground = .next s3 ∧
      waitLoop [none, some 15] s3 = some s4 ∧ s4.g_run = false ∧
      main Env.conStopThrows Build.z10Slave ClientOpt.foreground [none, some 15]
        = some (.uncaught (.stdException "stop failed") sf) ∧
      conStops sf.trace = [.conStop] ∧
      ¬ ∃ s, main Env.conStopThrows Build.z10Slave ClientOpt.foreground [none, some 15]
        = some (.exited EXIT_SUCCESS s) := by
  refine ⟨_, _, _, rfl, rfl, rfl, rfl, rfl, ?_⟩
  rintro ⟨s, hs⟩
  have hrun : main Env.conStopThrows Build.z10Slave ClientOpt.foreground [none, some 15]
      = some (.uncaught (.stdException "stop failed") _) := rfl
  rw [hrun] at hs
  cases hs

/-- C18, amended: on every path of `main` that reaches the wait loop and leaves it, `g_run` is
false when the loop is left; `con_server->stop()` has not been called before or during the
loop and is called exactly once behind it; when that call returns, `main` returns
`EXIT_SUCCESS`, and when it throws, the exception leaves `main` uncaught. The final `try` block
is empty, so the code behind it runs from the state the loop left; it does the same from the
state the `catch` clause would leave. -/
theorem main_stops_control_plane_once (env : Env) (build : Build) (opt : ClientOpt)
    (sched : List (Option Int)) (s3 s4 : State)
    (hpre : mainBeforeLoop env build opt = .next s3) (hloop : waitLoop sched s3 = some s4) :
    s4.g_run = false ∧
    conStops s4.trace = [] ∧
    main env build opt sched = some (mainShutdown env s4) ∧
    mainShutdown env s4 = mainEpilogue env s4 ∧
    (∀ base : State, (base = s4 ∨ ∃ what, base = mainFinalCatch what s4) →
      conStops (mainEpilogue env base).state.trace = [.conStop] ∧
      (env.conStop = .returns → ∃ sf, mainEpilogue env base = .exited EXIT_SUCCESS sf) ∧
      (∀ e, env.conStop = .throws e → ∃ sf, mainEpilogue env base = .uncaught e sf)) := by
  have hc3 : conStops s3.trace = [] := by
    have := mainBeforeLoop_conStops env build opt
    rwa [hpre] at this
  have hc4 : conStops s4.trace = [] := by
    rw [waitLoop_conStops sched s3 s4 hloop, hc3]
  refine ⟨waitLoop_exit sched s3 s4 hloop, hc4, ?_, rfl, ?_⟩
  · rw [main_eq, hpre]
    simp [hloop]
  · intro base hbase
    refine ⟨?_, mainEpilogue_returns env base, mainEpilogue_throws env base⟩
    rw [mainEpilogue_conStops]
    rcases hbase with rfl | ⟨what, rfl⟩
    · rw [hc4]; rfl
    · simp [mainFinalCatch, hc4]

/-- C18 amended, exercised on a run in which SIGTERM arrives in the second loop iteration
and `con_server->stop()` returns. -/
theorem main_stops_control_plane_once_witness :
    ∃ s3 s4 sf, mainBeforeLoop Env.quiet Build.z10Slave ClientOpt.foreground = .next s3 ∧
      waitLoop [none, some 15] s3 = some s4 ∧ Env.quiet.conStop = .returns ∧
      s4.g_run = false ∧
      main Env.quiet Build.z10Slave ClientOpt.foreground [none, some 15]
        = some (.exited EXIT_SUCCESS sf) ∧
      conStops sf.trace = [.conStop] := by
  have h := main_stops_control_plane_once Env.quiet Build.z10Slave ClientOpt.foreground
    [none, some 15] _ _ rfl rfl
  obtain ⟨h1, -, h3, h4, h5⟩ := h
  obtain ⟨h6, h7, -⟩ := h5 _ (Or.inl rfl)
  obtain ⟨sf, hsf⟩ := h7 rfl
  refine ⟨_, _, sf, rfl, rfl, rfl, h1, ?_, ?_⟩
  · rw [h3, h4, hsf]
  · rw [hsf] at h6
    exact h6

/-! ### The equalization filter -/

theorem filter_bypass_aux (iir : FilterCoefficients → FilterState → Int → Int)
    (c : FilterCoefficients) :
    ∀ (x : List Int) (st : FilterState), (filter iir true c st x).1 = x := by
  intro x
  induction x with
  | nil => intro st; rfl
  | cons a rest ih =>
    intro st
    simp only [filter, if_true]
    rw [ih]

/-- C11: the bypass flag `main` configures is set, and with the bypass flag set the filter is
the identity on sample streams, for every input stream, every coefficient set, every filter
law and every carried state. -/
theorem filter_bypass_is_identity (iir : FilterCoefficients → FilterState → Int → Int)
    (c : FilterCoefficients) (st : FilterState) (x : List Int) :
    mainLocals.filterBypass = true ∧
    (filter iir mainLocals.filterBypass c st x).1 = x ∧
    (filter iir true mainLocals.coefficientsCh1 st x).1 = x ∧
    (filter iir true mainLocals.coefficientsCh2 st x).1 = x :=
  ⟨rfl, filter_bypass_aux iir c x st, filter_bypass_aux iir _ x st, filter_bypass_aux iir _ x st⟩

/-- C17: the coefficients `main` configures for both channels are `aa = 0`, `bb = 0`,
`kk = 0xFFFFFF`, `pp = 0`; each is below `2 ^ 18` (for `aa`) or `2 ^ 25` (for `bb`, `kk`, `pp`),
the widths the register comments give, so masking with the field mask leaves it unchanged. -/
theorem default_coefficients_fit_registers :
    mainLocals.coefficientsCh1 = { aa := 0, bb := 0, kk := 0xFFFFFF, pp := 0 } ∧
    mainLocals.coefficientsCh2 = { aa := 0, bb := 0, kk := 0xFFFFFF, pp := 0 } ∧
    SpectrFpga.doc_filt_aa.width = 18 ∧ SpectrFpga.doc_filt_bb.width = 25 ∧
    SpectrFpga.doc_filt_kk.width = 25 ∧ SpectrFpga.doc_filt_pp.width = 25 ∧
    (∀ c ∈ [mainLocals.coefficientsCh1, mainLocals.coefficientsCh2],
      c.aa < 2 ^ 18 ∧ c.bb < 2 ^ 25 ∧ c.kk < 2 ^ 25 ∧ c.pp < 2 ^ 25 ∧
      c.aa &&& SpectrFpga.doc_filt_aa.mask = c.aa ∧
      c.bb &&& SpectrFpga.doc_filt_bb.mask = c.bb ∧
      c.kk &&& SpectrFpga.doc_filt_kk.mask = c.kk ∧
      c.pp &&& SpectrFpga.doc_filt_pp.mask = c.pp) := by
  decide

end ConsoleServer

namespace SpectrFpga

/-! ### Constants and layout of `spec_fpga.h` -/

/-- C12: with 16384 samples of 4 bytes, each channel buffer is `0x10000` bytes long; the ChA
and ChB buffers have no byte in common, both lie inside the mapped window, ChB ending exactly
at its end; the register block is the first 80 bytes and shares no byte with either
buffer. -/
theorem data_regions_fit_window :
    SIGNAL_LENGTH * SAMPLE_BYTES = 0x10000 ∧
    chaData.base = SPECTR_FPGA_CHA_OFFSET ∧ chaData.size = 0x10000 ∧
    chbData.base = SPECTR_FPGA_CHB_OFFSET ∧ chbData.size = 0x10000 ∧
    chaData.disjoint chbData = true ∧
    (∀ x, ¬ (chaData.contains x = true ∧ chbData.contains x = true)) ∧
    chaData.stop ≤ window.stop ∧ chbData.stop = window.stop ∧
    window.size = SPECTR_FPGA_BASE_SIZE ∧
    registerBlock.base = 0 ∧ registerBlock.size = 80 ∧
    registerBlock.disjoint chaData = true ∧ registerBlock.disjoint chbData = true ∧
    (∀ x, registerBlock.contains x = true →
      chaData.contains x = false ∧ chbData.contains x = false) := by
  have hr : registerBlock.size = 80 := by decide
  have hs : structSize spectr_fpga_reg_mem_t = 80 := by decide
  refine ⟨by decide, rfl, by decide, rfl, by decide, by decide, ?_, by decide, by decide, rfl,
    rfl, hr, by decide, by decide, ?_⟩
  · intro x
    simp only [Region.contains, Region.stop, chaData, chbData, SPECTR_FPGA_CHA_OFFSET,
      SPECTR_FPGA_CHB_OFFSET, SIGNAL_LENGTH, SAMPLE_BYTES, Bool.and_eq_true,
      decide_eq_true_eq]
    omega
  · intro x
    simp only [Region.contains, Region.stop, hs, registerBlock, chaData, chbData,
      SPECTR_FPGA_CHA_OFFSET, SPECTR_FPGA_CHB_OFFSET, SIGNAL_LENGTH, SAMPLE_BYTES,
      Bool.and_eq_true, decide_eq_true_eq, Bool.and_eq_false_iff, decide_eq_false_iff_not]
    omega

/-- C13: each bit constant equals the mask of the bit range its register comment names:
the threshold masks are bits 13:0 (`2 ^ 14 - 1`), the decimation mask bits 16:0
(`2 ^ 17 - 1`), the trigger source mask bits 2:0 (`2 ^ 3 - 1`), the trigger delay mask bits
31:0 (`2 ^ 32 - 1`), `SPECTR_FPGA_BUFFER_FILL` bit 4, `SPECTR_FPGA_CONF_ARM_BIT` bit 0 and
`SPECTR_FPGA_CONF_RST_BIT` bit 1, the last three pairwise disjoint. -/
theorem bit_constants_match_documentation :
    SPECTR_FPGA_CHA_THR_MASK = doc_cha_thr.mask ∧ SPECTR_FPGA_CHA_THR_MASK = 2 ^ 14 - 1 ∧
    SPECTR_FPGA_CHB_THR_MASK = doc_chb_thr.mask ∧ SPECTR_FPGA_CHB_THR_MASK = 2 ^ 14 - 1 ∧
    SPECTR_FPGA_DATA_DEC_MASK = doc_data_dec.mask ∧ SPECTR_FPGA_DATA_DEC_MASK = 2 ^ 17 - 1 ∧
    SPECTR_FPGA_TRIG_SRC_MASK = doc_trig_source.mask ∧ SPECTR_FPGA_TRIG_SRC_MASK = 2 ^ 3 - 1 ∧
    SPECTR_FPGA_TRIG_DLY_MASK = doc_trigger_delay.mask ∧
    SPECTR_FPGA_TRIG_DLY_MASK = 2 ^ 32 - 1 ∧
    SPECTR_FPGA_BUFFER_FILL = doc_conf_buffer_filled.mask ∧ SPECTR_FPGA_BUFFER_FILL = 2 ^ 4 ∧
    SPECTR_FPGA_CONF_ARM_BIT = doc_conf_arm_trigger.mask ∧ SPECTR_FPGA_CONF_ARM_BIT = 2 ^ 0 ∧
    SPECTR_FPGA_CONF_RST_BIT = doc_conf_rst_wr_state_machine.mask ∧
    SPECTR_FPGA_CONF_RST_BIT = 2 ^ 1 ∧
    SPECTR_FPGA_CONF_ARM_BIT &&& SPECTR_FPGA_CONF_RST_BIT = 0 ∧
    SPECTR_FPGA_CONF_ARM_BIT &&& SPECTR_FPGA_BUFFER_FILL = 0 ∧
    SPECTR_FPGA_CONF_RST_BIT &&& SPECTR_FPGA_BUFFER_FILL = 0 := by
  decide

/-- C14, evaluated on the header: every legal decimation factor and the trigger sources 1 to 7
pass their mask unchanged, but the two documented sources of the 250-12 board do not: masking
turns 8 into 0 and 9 into 1. -/
theorem documented_values_under_masks :
    (∀ v ∈ legalDecimations, v &&& SPECTR_FPGA_DATA_DEC_MASK = v) ∧
    (∀ v ∈ [1, 2, 3, 4, 5, 6, 7], v &&& SPECTR_FPGA_TRIG_SRC_MASK = v) ∧
    documentedTrigSources.filter (fun v => v &&& SPECTR_FPGA_TRIG_SRC_MASK != v) = [8, 9] ∧
    8 &&& SPECTR_FPGA_TRIG_SRC_MASK = 0 ∧
    9 &&& SPECTR_FPGA_TRIG_SRC_MASK = 1 := by
  decide

/-- C16: the members of `spectr_fpga_reg_mem_t` lie at byte offsets 0, 4, 8, ... in
declaration order, the member with index `k` at offset `4 * k`; `conf` is at `0x00` and
`trig_source` at `0x04`; the eight filter coefficients lie at `0x30` to `0x4C` in the order
ChA aa, bb, kk, pp, ChB aa, bb, kk, pp; the size of the struct is `0x50`. -/
theorem register_struct_layout :
    (offsetsFrom 0 spectr_fpga_reg_mem_t).map Prod.snd = (List.range 20).map (fun k => 4 * k) ∧
    offsetOf spectr_fpga_reg_mem_t "conf" = some 0x00 ∧
    offsetOf spectr_fpga_reg_mem_t "trig_source" = some 0x04 ∧
    (offsetsFrom 0 spectr_fpga_reg_mem_t).drop 12 =
      [("cha_filt_aa", 0x30), ("cha_filt_bb", 0x34), ("cha_filt_kk", 0x38),
       ("cha_filt_pp", 0x3C), ("chb_filt_aa", 0x40), ("chb_filt_bb", 0x44),
       ("chb_filt_kk", 0x48), ("chb_filt_pp", 0x4C)] ∧
    endFrom 0 spectr_fpga_reg_mem_t = 0x50 ∧
    structSize spectr_fpga_reg_mem_t = 0x50 := by
  decide

end SpectrFpga

namespace Generate

/-! ### Resetting the generator state machines -/

theorem testBit_reset_mask (i : Nat) :
    Nat.testBit 0x00400040 i = (decide (i = 6) || decide (i = 22)) := by
  have h : (0x00400040 : Nat) = 2 ^ 6 ||| 2 ^ 22 := by decide
  rw [h, Nat.testBit_or, Nat.testBit_two_pow, Nat.testBit_two_pow]
  simp only [eq_comm]

theorem testBit_chA_mask (i : Nat) : Nat.testBit 0x00000040 i = decide (i = 6) := by
  have h : (0x00000040 : Nat) = 2 ^ 6 := by decide
  rw [h, Nat.testBit_two_pow]
  simp only [eq_comm]

theorem testBit_chB_mask (i : Nat) : Nat.testBit 0x00400000 i = decide (i = 22) := by
  have h : (0x00400000 : Nat) = 2 ^ 22 := by decide
  rw [h, Nat.testBit_two_pow]
  simp only [eq_comm]

theorem testBit_all_ones (i : Nat) : Nat.testBit 0xFFFFFFFF i = decide (i < 32) := by
  have h : (0xFFFFFFFF : Nat) = 2 ^ 32 - 1 := by decide
  rw [h, Nat.testBit_two_pow_sub_one]

theorem testBit_high (w i : Nat) (hw : w < 2 ^ 32) (hi : ¬ i < 32) : w.testBit i = false := by
  apply Nat.testBit_lt_two_pow
  calc w < 2 ^ 32 := hw
    _ ≤ 2 ^ i := Nat.pow_le_pow_right (by norm_num) (by omega)

theorem resetSM_control (s : GenState) :
    (generate_ResetSM s).1.control
      = (s.control ||| 0x00400040) &&& (0xFFFFFFFF ^^^ 0x00400040) := rfl

theorem resetChannelSM_control (s : GenState) :
    (generate_ResetChannelSM .RP_CH_2 (generate_ResetChannelSM .RP_CH_1 s).1).1.control
      = (((s.control ||| 0x00000040) &&& (0xFFFFFFFF ^^^ 0x00000040)) ||| 0x00400000)
          &&& (0xFFFFFFFF ^^^ 0x00400000) := rfl

theorem resetSM_testBit (w i : Nat) (hw : w < 2 ^ 32) :
    ((w ||| 0x00400040) &&& (0xFFFFFFFF ^^^ 0x00400040)).testBit i
      = (w.testBit i && !(decide (i = 6) || decide (i = 22))) := by
  rw [Nat.testBit_and, Nat.testBit_or, Nat.testBit_xor, testBit_reset_mask, testBit_all_ones]
  by_cases h6 : i = 6
  · subst h6; simp
  · by_cases h22 : i = 22
    · subst h22; simp
    · by_cases h32 : i < 32
      · simp [h6, h22, h32]
      · simp [h6, h22, h32, testBit_high w i hw h32]

theorem resetChannels_testBit (w i : Nat) (hw : w < 2 ^ 32) :
    ((((w ||| 0x00000040) &&& (0xFFFFFFFF ^^^ 0x00000040)) ||| 0x00400000)
        &&& (0xFFFFFFFF ^^^ 0x00400000)).testBit i
      = (w.testBit i && !(decide (i = 6) || decide (i = 22))) := by
  rw [Nat.testBit_and, Nat.testBit_or, Nat.testBit_and, Nat.testBit_or, Nat.testBit_xor,
    Nat.testBit_xor, testBit_chA_mask, testBit_chB_mask, testBit_all_ones]
  by_cases h6 : i = 6
  · subst h6; simp
  · by_cases h22 : i = 22
    · subst h22; simp
    · by_cases h32 : i < 32
      · simp [h6, h22, h32]
      · simp [h6, h22, h32, testBit_high w i hw h32]

/-- C15: with `cmn_SetBits` as OR-in and `cmn_UnsetBits` as AND-NOT, for every 32-bit control
word `generate_ResetSM` returns `RP_OK` and leaves a word in which bits 6 and 22 are clear and
every other bit is as before; it is the word that `generate_ResetChannelSM(RP_CH_1)` followed
by `generate_ResetChannelSM(RP_CH_2)` leaves; the per-channel masks `0x00000040` and
`0x00400000` are disjoint and their union is `0x00400040`. -/
theorem generate_ResetSM_resets_both_channels (s : GenState) (h32 : s.control < 2 ^ 32) :
    (generate_ResetSM s).2 = .RP_OK ∧
    (generate_ResetSM s).1.control.testBit 6 = false ∧
    (generate_ResetSM s).1.control.testBit 22 = false ∧
    (∀ i, i ≠ 6 → i ≠ 22 →
      (generate_ResetSM s).1.control.testBit i = s.control.testBit i) ∧
    (generate_ResetSM s).1.control
      = (generate_ResetChannelSM .RP_CH_2 (generate_ResetChannelSM .RP_CH_1 s).1).1.control ∧
    (0x00000040 : Nat) &&& 0x00400000 = 0 ∧
    (0x00000040 : Nat) ||| 0x00400000 = 0x00400040 := by
  refine ⟨rfl, ?_, ?_, ?_, ?_, by decide, by decide⟩
  · rw [resetSM_control, resetSM_testBit _ _ h32]; simp
  · rw [resetSM_control, resetSM_testBit _ _ h32]; simp
  · intro i h6 h22
    rw [resetSM_control, resetSM_testBit _ _ h32]
    simp [h6, h22]
  · rw [resetSM_control, resetChannelSM_control]
    apply Nat.eq_of_testBit_eq
    intro i
    rw [resetSM_testBit _ _ h32, resetChannels_testBit _ _ h32]

/-- C15, exercised on the control word with all 32 bits set. -/
theorem generate_ResetSM_resets_both_channels_witness :
    ({ GenState.zero with control := 0xFFFFFFFF } : GenState).control < 2 ^ 32 ∧
    (generate_ResetSM { GenState.zero with control := 0xFFFFFFFF }).1.control = 0xFFBFFFBF ∧
    (generate_ResetSM { GenState.zero with control := 0xFFFFFFFF }).1.control
      = (generate_ResetChannelSM .RP_CH_2
          (generate_ResetChannelSM .RP_CH_1
            { GenState.zero with control := 0xFFFFFFFF }).1).1.control :=
  ⟨by decide, by decide,
    (generate_ResetSM_resets_both_channels { GenState.zero with control := 0xFFFFFFFF }
      (by decide)).2.2.2.2.1⟩

/-! ### The DC offset read-back -/

theorem properties_setProperties (s : GenState) (channel : rp_channel_t) (p : ch_properties_t) :
    (s.setProperties channel p).properties channel = p := by
  cases channel <;> rfl

/-- C19, evaluated on the code: for every hardware behaviour, channel, gain and state, the
result of `generate_getDCOffset` is the same whatever the `amplitudeOffset` register holds,
and it is unchanged by a successful `generate_setDCOffset`; it is computed from
`amplitudeScale`. With the stand-in hardware, writing the offset 1 stores 8192 in
`amplitudeOffset` and leaves the read-back at 0, while a following `generate_setAmplitude`
changes the read-back. -/
theorem generate_getDCOffset_reads_amplitudeScale :
    (∀ (F D : Type) (hw : Hw F D) (channel : rp_channel_t) (gain : rp_gen_gain_t)
        (s : GenState) (v : Int),
      generate_getDCOffset hw channel gain
          (s.setProperties channel { s.properties channel with amplitudeOffset := v })
        = generate_getDCOffset hw channel gain s) ∧
    (∀ (F D : Type) (hw : Hw F D) (channel : rp_channel_t) (gain : rp_gen_gain_t)
        (s : GenState) (offset : F),
      match generate_setDCOffset hw channel gain offset s with
      | .ok s1 => generate_getDCOffset hw channel gain s1
                    = generate_getDCOffset hw channel gain s
      | .error _ => True) ∧
    (match generate_setDCOffset Hw.standIn .RP_CH_1 .RP_GAIN_1X 1 GenState.zero with
      | .ok s1 =>
        s1.properties_chA.amplitudeOffset = 8192 ∧
        generate_getDCOffset Hw.standIn .RP_CH_1 .RP_GAIN_1X s1 = .ok 0 ∧
        (match generate_setAmplitude Hw.standIn .RP_CH_1 .RP_GAIN_1X 1 s1 with
          | .ok s2 =>
            s2.properties_chA.amplitudeOffset = 8192 ∧
            generate_getDCOffset Hw.standIn .RP_CH_1 .RP_GAIN_1X s2 = .ok 67108864
          | .error _ => False)
      | .error _ => False) := by
  refine ⟨?_, ?_, ?_⟩
  · intro F D hw channel gain s v
    unfold generate_getDCOffset
    rw [properties_setProperties]
  · intro F D hw channel gain s offset
    unfold generate_setDCOffset generate_getDCOffset
    cases dacSetup hw "generate_setDCOffset" channel gain with
    | error e => trivial
    | ok d =>
      simp only
      rw [properties_setProperties]
      cases channel <;> rfl
  · exact ⟨rfl, rfl, rfl, rfl⟩

/-! ### The stores of `generate_writeData` -/

theorem writeLoop_eq (N start : Int) (cnt : Int → Int) :
    ∀ (n : Nat) (i : Int), i + n = start + N →
      writeLoop N start cnt n i
        = (List.range n).map (fun k : Nat => (Int.tmod (i + k) N, cnt (i + k - start))) := by
  intro n
  induction n with
  | zero => intro i _; rfl
  | succ m ih =>
    intro i hi
    have hlt : i < start + N := by omega
    have hstep := ih (i + 1) (by push_cast at hi; omega)
    simp only [writeLoop, hlt, if_true, hstep, List.range_succ_eq_map, List.map_cons,
      List.map_map]
    refine congrArg₂ _ ?_ ?_
    · simp
    · apply List.map_congr_left
      intro k _
      simp only [Function.comp, Nat.succ_eq_add_one]
      push_cast
      have e : i + 1 + (k : Int) = i + ((k : Int) + 1) := by ring
      rw [e]

theorem writeLoop_fuel (N start : Int) (cnt : Int → Int) :
    ∀ (extra n : Nat) (i : Int), i + n = start + N →
      writeLoop N start cnt (n + extra) i = writeLoop N start cnt n i := by
  intro extra n
  induction n with
  | zero =>
    intro i hi
    have hge : ¬ i < start + N := by
      have : i = start + N := by simpa using hi
      omega
    cases extra with
    | zero => rfl
    | succ e => simp [writeLoop, hge]
  | succ m ih =>
    intro i hi
    have hlt : i < start + N := by omega
    have hstep := ih (i + 1) (by push_cast at hi; omega)
    have e : m + 1 + extra = (m + extra) + 1 := by omega
    rw [e]
    simp only [writeLoop, hlt, if_true, hstep]

theorem writeDataStores_eq {F D : Type} (hw : Hw F D) (N : Int) (data : Int → F) (start : Int)
    (bits : Nat) (is_sign : Bool) (hN : 0 < N) :
    writeDataStores hw N data start bits is_sign
      = (List.range N.toNat).map (fun k : Nat =>
          (Int.tmod (adjustStart N start + k) N,
            hw.convertToCnt (data k) bits hw.one is_sign hw.oneD 0)) := by
  unfold writeDataStores
  rw [writeLoop_eq _ _ _ _ _ (by rw [Int.toNat_of_nonneg (Int.le_of_lt hN)])]
  apply List.map_congr_left
  intro k _
  have e : adjustStart N start + (k : Int) - adjustStart N start = (k : Int) := by ring
  simp only [e]

theorem index_injective (N s : Int) (x y : Nat) (hx : (x : Int) < N) (hy : (y : Int) < N)
    (h : (s + x) % N = (s + y) % N) : x = y := by
  have h0 : ((s + x) - (s + y)) % N = 0 := Int.emod_eq_emod_iff_emod_sub_eq_zero.mp h
  have hdvd : N ∣ (x : Int) - y := by
    have := Int.dvd_of_emod_eq_zero h0
    have e : (s + (x : Int)) - (s + y) = (x : Int) - y := by ring
    rwa [e] at this
  have habs : |(x : Int) - y| < N := by
    rw [abs_lt]
    constructor <;> omega
  have := Int.eq_zero_of_abs_lt_dvd hdvd habs
  omega

theorem applyWrites_other :
    ∀ (ws : List (Int × Int)) (buf : Int → Int) (j : Int), j ∉ ws.map Prod.fst →
      applyWrites ws buf j = buf j := by
  intro ws
  induction ws with
  | nil => intro buf j _; rfl
  | cons w rest ih =>
    intro buf j hj
    obtain ⟨j0, v0⟩ := w
    simp only [List.map_cons, List.mem_cons, not_or] at hj
    simp only [applyWrites]
    rw [ih _ j hj.2]
    simp [hj.1]

theorem applyWrites_stored :
    ∀ (ws : List (Int × Int)) (buf : Int → Int) (j v : Int), (ws.map Prod.fst).Nodup →
      (j, v) ∈ ws → applyWrites ws buf j = v := by
  intro ws
  induction ws with
  | nil => intro buf j v _ h; simp at h
  | cons w rest ih =>
    intro buf j v hnd hmem
    obtain ⟨j0, v0⟩ := w
    simp only [List.map_cons, List.nodup_cons] at hnd
    simp only [applyWrites]
    rcases List.mem_cons.mp hmem with heq | hrest
    · simp only [Prod.mk.injEq] at heq
      obtain ⟨rfl, rfl⟩ := heq
      rw [applyWrites_other _ _ _ hnd.1]
      simp
    · exact ih _ j v hnd.2 hrest

theorem tmod_of_neg (a N : Int) (ha : a < 0) (hN : 0 < N) :
    Int.tmod a N ≤ 0 ∧ (Int.tmod a N < 0 ↔ ¬ N ∣ a) := by
  have hle : Int.tmod a N ≤ 0 := by
    obtain ⟨m, rfl⟩ := Int.eq_negSucc_of_lt_zero ha
    obtain ⟨n, rfl⟩ := Int.eq_ofNat_of_zero_le (Int.le_of_lt hN)
    show -((((m + 1) % n : Nat) : Int)) ≤ 0
    omega
  refine ⟨hle, ?_⟩
  constructor
  · intro hlt hdvd
    have := Int.tmod_eq_zero_of_dvd hdvd
    omega
  · intro hnd
    by_contra hge
    have h0 : Int.tmod a N = 0 := by omega
    exact hnd (Int.dvd_of_tmod_eq_zero h0)

theorem wrapCounterValue_eq (size : Nat) :
    (wrapCounterValue size : Int) = (65536 * (size : Int) - 1) % 2 ^ 32 := by
  unfold wrapCounterValue
  push_cast
  omega

theorem generate_writeData_ok {F D : Type} (hw : Hw F D) (N : Int) (channel : rp_channel_t)
    (data : Int → F) (start : Int) (length : Nat) (s : GenState) (fs : F) (bits : Nat)
    (is_sign : Bool) (hfs : hw.fastDACFullScale (hw.convertCh channel) = some fs)
    (hbits : hw.fastDACBits (hw.convertCh channel) = some bits)
    (hsign : hw.fastDACIsSigned channel.index = some is_sign) :
    generate_writeData hw N channel data start length s =
      .ok (((generate_setWrapCounter channel length s).1).setData channel
        (applyWrites (writeDataStores hw N data start bits is_sign)
          (((generate_setWrapCounter channel length s).1).data channel))) := by
  unfold generate_writeData
  rw [hfs, hbits, hsign]

theorem setProperties_data (s : GenState) (channel other : rp_channel_t)
    (p : ch_properties_t) : (s.setProperties channel p).data other = s.data other := by
  cases channel <;> cases other <;> rfl

theorem note_data (s : GenState) (label : String) (value : Int) (channel : rp_channel_t) :
    (s.note label value).data channel = s.data channel := by
  cases channel <;> rfl

theorem setWrapCounter_data (channel : rp_channel_t) (size : Nat) (s : GenState) :
    ((generate_setWrapCounter channel size s).1).data channel = s.data channel := by
  unfold generate_setWrapCounter
  rw [setProperties_data, note_data]

theorem setWrapCounter_counterWrap (channel : rp_channel_t) (size : Nat) (s : GenState) :
    (((generate_setWrapCounter channel size s).1).properties channel).counterWrap
      = wrapCounterValue size := by
  unfold generate_setWrapCounter
  rw [properties_setProperties]

theorem setData_data (s : GenState) (channel : rp_channel_t) (buf : Int → Int) :
    (s.setData channel buf).data channel = buf := by
  cases channel <;> rfl

theorem setData_properties (s : GenState) (channel : rp_channel_t) (buf : Int → Int) :
    (s.setData channel buf).properties channel = s.properties channel := by
  cases channel <;> rfl

theorem stores_in_range {F D : Type} (hw : Hw F D) (N : Int) (data : Int → F) (start : Int)
    (bits : Nat) (is_sign : Bool) (hN : 0 < N) (hlo : -N ≤ start) :
    writeDataStores hw N data start bits is_sign
      = (List.range N.toNat).map (fun k : Nat =>
          ((adjustStart N start + k) % N,
            hw.convertToCnt (data k) bits hw.one is_sign hw.oneD 0)) := by
  rw [writeDataStores_eq hw N data start bits is_sign hN]
  apply List.map_congr_left
  intro k _
  have hs : 0 ≤ adjustStart N start := by
    unfold adjustStart
    split_ifs <;> omega
  rw [Int.tmod_eq_emod (by omega) (Int.le_of_lt hN)]

theorem stores_indices {F D : Type} (hw : Hw F D) (N : Int) (data : Int → F) (start : Int)
    (bits : Nat) (is_sign : Bool) (hN : 0 < N) (hlo : -N ≤ start) :
    (writeDataStores hw N data start bits is_sign).map Prod.fst
      = (List.range N.toNat).map (fun k : Nat => (adjustStart N start + k) % N) := by
  rw [stores_in_range hw N data start bits is_sign hN hlo, List.map_map]
  rfl

theorem stores_nodup {F D : Type} (hw : Hw F D) (N : Int) (data : Int → F) (start : Int)
    (bits : Nat) (is_sign : Bool) (hN : 0 < N) (hlo : -N ≤ start) :
    ((writeDataStores hw N data start bits is_sign).map Prod.fst).Nodup := by
  rw [stores_indices hw N data start bits is_sign hN hlo]
  refine List.Nodup.map_on ?_ (List.nodup_range _)
  intro x hx y hy hxy
  have hx2 : (x : Int) < N := by
    have := List.mem_range.mp hx
    omega
  have hy2 : (y : Int) < N := by
    have := List.mem_range.mp hy
    omega
  exact index_injective N _ x y hx2 hy2 hxy

theorem stores_cover {F D : Type} (hw : Hw F D) (N : Int) (data : Int → F) (start : Int)
    (bits : Nat) (is_sign : Bool) (hN : 0 < N) (hlo : -N ≤ start) (j : Int) (h0 : 0 ≤ j)
    (hj : j < N) : j ∈ (writeDataStores hw N data start bits is_sign).map Prod.fst := by
  rw [stores_indices hw N data start bits is_sign hN hlo, List.mem_map]
  have hnz : N ≠ 0 := by omega
  have hk0 : 0 ≤ (j - adjustStart N start) % N := Int.emod_nonneg _ hnz
  have hk1 : (j - adjustStart N start) % N < N := Int.emod_lt_of_pos _ hN
  refine ⟨((j - adjustStart N start) % N).toNat, List.mem_range.mpr (by omega), ?_⟩
  rw [Int.toNat_of_nonneg hk0, Int.add_emod_emod]
  have e : adjustStart N start + (j - adjustStart N start) = j := by ring
  rw [e]
  exact Int.emod_eq_of_lt h0 hj

/-- C20 as stated fails in its last sentence: with a buffer of 16384 samples and
`start = -32768`, which is below `-N`, the first store of the loop goes to index 0, which is
not negative. -/
theorem generate_writeData_counterexample :
    (-32768 : Int) < -16384 ∧ INT32_MIN ≤ -32768 ∧
    ((writeDataStores Hw.standIn 16384 (fun _ => 0) (-32768) 14 true).head?.map Prod.fst)
      = some 0 := by
  decide

/-- C20, amended: once its three profile queries succeed, `generate_writeData` returns
`RP_OK` for every buffer size `N > 0`, start and length; the stores it makes do not depend on
`length`, which only sets the wrap counter to `65536 * length - 1` modulo `2 ^ 32`. For
`-N ≤ start ≤ INT32_MAX - 2 * N`, with `s = start + N` if `start < 0` and `s = start`
otherwise, the stores are, for `k = 0 .. N - 1` in this order, the conversion of `data[k]` to
index `(s + k) mod N`; every index lies in `[0, N)`, every slot in `[0, N)` is stored to
exactly once, and afterwards slot `(s + k) mod N` holds the conversion of `data[k]`. For
`start < -N` the first store goes to the index `(start + N) % N` of C, which is never
positive, and is negative exactly when `start` is not a multiple of `N`. -/
theorem generate_writeData_stores {F D : Type} (hw : Hw F D) (N : Int)
    (channel : rp_channel_t) (data : Int → F) (start : Int) (length : Nat) (s : GenState)
    (fs : F) (bits : Nat) (is_sign : Bool) (hN : 0 < N)
    (hfs : hw.fastDACFullScale (hw.convertCh channel) = some fs)
    (hbits : hw.fastDACBits (hw.convertCh channel) = some bits)
    (hsign : hw.fastDACIsSigned channel.index = some is_sign) :
    ∃ s', generate_writeData hw N channel data start length s = .ok s' ∧
      s'.data channel
        = applyWrites (writeDataStores hw N data start bits is_sign) (s.data channel) ∧
      (s'.properties channel).counterWrap = wrapCounterValue length ∧
      (wrapCounterValue length : Int) = (65536 * (length : Int) - 1) % 2 ^ 32 ∧
      (∀ length2 : Nat, ∃ s2, generate_writeData hw N channel data start length2 s = .ok s2 ∧
        s2.data channel = s'.data channel) ∧
      (-N ≤ start → start ≤ INT32_MAX - 2 * N →
        writeDataStores hw N data start bits is_sign
          = (List.range N.toNat).map (fun k : Nat =>
              ((adjustStart N start + k) % N,
                hw.convertToCnt (data k) bits hw.one is_sign hw.oneD 0)) ∧
        (∀ w ∈ writeDataStores hw N data start bits is_sign, 0 ≤ w.1 ∧ w.1 < N) ∧
        (∀ j : Int, 0 ≤ j → j < N →
          ((writeDataStores hw N data start bits is_sign).map Prod.fst).count j = 1) ∧
        (∀ k : Nat, (k : Int) < N →
          s'.data channel ((adjustStart N start + k) % N)
            = hw.convertToCnt (data k) bits hw.one is_sign hw.oneD 0)) ∧
      (INT32_MIN ≤ start → start < -N →
        (writeDataStores hw N data start bits is_sign).head?
          = some (Int.tmod (start + N) N,
              hw.convertToCnt (data 0) bits hw.one is_sign hw.oneD 0) ∧
        Int.tmod (start + N) N ≤ 0 ∧
        (Int.tmod (start + N) N < 0 ↔ ¬ N ∣ start)) := by
  have hdata : ∀ len : Nat,
      (((generate_setWrapCounter channel len s).1).setData channel
        (applyWrites (writeDataStores hw N data start bits is_sign)
          (((generate_setWrapCounter channel len s).1).data channel))).data channel
      = applyWrites (writeDataStores hw N data start bits is_sign) (s.data channel) := by
    intro len
    rw [setData_data, setWrapCounter_data]
  refine ⟨_, generate_writeData_ok hw N channel data start length s fs bits is_sign hfs hbits
    hsign, hdata length, ?_, wrapCounterValue_eq length, ?_, ?_, ?_⟩
  · rw [setData_properties, setWrapCounter_counterWrap]
  · intro length2
    exact ⟨_, generate_writeData_ok hw N channel data start length2 s fs bits is_sign hfs
      hbits hsign, by rw [hdata length2, hdata length]⟩
  · intro hlo _
    have hnz : N ≠ 0 := by omega
    have hnd := stores_nodup hw N data start bits is_sign hN hlo
    have hst := stores_in_range hw N data start bits is_sign hN hlo
    refine ⟨hst, ?_, ?_, ?_⟩
    · intro w hw2
      rw [hst, List.mem_map] at hw2
      obtain ⟨k, -, rfl⟩ := hw2
      exact ⟨Int.emod_nonneg _ hnz, Int.emod_lt_of_pos _ hN⟩
    · intro j h0 hj
      exact List.count_eq_one_of_mem hnd (stores_cover hw N data start bits is_sign hN hlo j
        h0 hj)
    · intro k hk
      rw [hdata length]
      apply applyWrites_stored _ _ _ _ hnd
      rw [hst, List.mem_map]
      exact ⟨k, List.mem_range.mpr (by omega), rfl⟩
  · intro _ hlt
    have hneg : start + N < 0 := by omega
    have hadj : adjustStart N start = start + N := by
      unfold adjustStart
      rw [if_pos (by omega)]
    have hpos : N.toNat ≠ 0 := by omega
    refine ⟨?_, (tmod_of_neg _ N hneg hN).1, ?_⟩
    · rw [writeDataStores_eq hw N data start bits is_sign hN, List.head?_map,
        List.head?_range, if_neg hpos, hadj]
      simp
    · rw [(tmod_of_neg _ N hneg hN).2, dvd_add_self_right]

/-- C20 amended, exercised with the stand-in hardware on a buffer of four samples and
`start = -3`. -/
theorem generate_writeData_stores_witness :
    (0 : Int) < 4 ∧ (-4 : Int) ≤ -3 ∧ (-3 : Int) ≤ INT32_MAX - 2 * 4 ∧
    Hw.standIn.fastDACFullScale (Hw.standIn.convertCh .RP_CH_1) = some 1 ∧
    Hw.standIn.fastDACBits (Hw.standIn.convertCh .RP_CH_1) = some 14 ∧
    Hw.standIn.fastDACIsSigned rp_channel_t.RP_CH_1.index = some true ∧
    (∃ s', generate_writeData Hw.standIn 4 .RP_CH_1 (fun k => k) (-3) 7 GenState.zero
        = .ok s') ∧
    (∀ j : Int, 0 ≤ j → j < 4 →
      ((writeDataStores Hw.standIn 4 (fun k => k) (-3) 14 true).map Prod.fst).count j = 1) := by
  obtain ⟨s', h1, -, -, -, -, h6, -⟩ := generate_writeData_stores Hw.standIn 4 .RP_CH_1
    (fun k => k) (-3) 7 GenState.zero 1 14 true (by decide) rfl rfl rfl
  exact ⟨by decide, by decide, by decide, rfl, rfl, rfl, ⟨s', h1⟩,
    (h6 (by decide) (by decide)).2.2.1⟩

end Generate
end RedPitaya
